import Mathlib

/-!
A verification development for the `geoutil` repository: a shallow embedding
of the GeoJSON/WKB geometry codec (`geoutil.go`, `encoding/wkb/wkb.go`,
`encoding/wkb/decode.go`) together with theorems settling the specification
claims about it.

Modelling conventions, used consistently below:

* Go `float64` degree values are modelled as exact rationals (`ℚ`).  All
  claims under study are stated "up to floating-point representation", so the
  embedding works with exact arithmetic and models the paired conversions
  degree-value <-> wire-float and `LatLng` <-> `Point` as exact mutual
  inverses.
* The external spherical-geometry library (`github.com/golang/geo/s2`) is a
  black-box collaborator of the code under study.  Its purely structural
  operations (vertex storage, `Invert` = reverse the vertex list,
  `OrientedVertex` index arithmetic, `IsHole` = odd nesting depth) are
  modelled directly from their Go sources; its genuinely geometric predicates
  (`IsNormalized`, `ContainsPoint`, the nesting-depth assignment performed by
  `PolygonFromLoops`) are abstracted into an `S2Model` parameter.  Theorems
  that depend on geometric facts carry them as explicit hypotheses on the
  `S2Model`, and witnesses instantiate a concrete planar model (`M0`).
* A Go slice access `xs[i]` is a total operation that panics when out of
  bounds.  It is embedded as `goIndexZ`, returning `Except Abort _` where
  `Abort` distinguishes a runtime panic from an ordinary returned `error`.
* Go `uint32` truncation is modelled with explicit `% 2 ^ 32`.
-/

namespace Geo

/-- A Go runtime panic (`index out of range [i] with length n`). -/
inductive GoPanic where
  | indexOutOfRange (i : ℤ) (n : ℕ)
  deriving DecidableEq

/-- The `error` values produced by the code under study.  Each constructor
carries exactly the data interpolated into the corresponding Go error
message, so "the error names the offending value" is visible in the model. -/
inductive Err where
  /-- geoutil: "cannot process coordinates with dimension %d" -/
  | dimension (d : ℕ)
  /-- geoutil: "invalid precision level %d" -/
  | invalidPrecision (p : ℤ)
  /-- wkb: "unknown byte order %d" -/
  | unknownByteOrder (b : ℕ)
  /-- wkb: "invalid geometry type %d, expected %d" -/
  | invalidGeometryType (found expected : ℕ)
  /-- wkb: "invalid geometry type %d, expected %d or %d" -/
  | invalidGeometryTypeEither (found e1 e2 : ℕ)
  /-- an end-of-input error from the underlying byte source (io.EOF /
  io.ErrUnexpectedEOF) -/
  | eof
  /-- model artifact: the token stream held a float where bytes were expected
  (or with the wrong byte order).  Unreachable on streams produced by the
  encoder, which is the only place claims read floats back. -/
  | wireMismatch
  /-- an error returned by the caller-supplied byte sink during encode; the
  code is carried so "propagated verbatim" is observable -/
  | sinkFailure (code : ℕ)
  /-- encoding/json: a JSON value of the wrong type for the target field -/
  | jsonType
  /-- encoding/json: unmarshalling an absent (nil) RawMessage -/
  | jsonEmpty
  /-- geojson: "invalid Feature Type value %s" -/
  | invalidFeatureType (s : String)
  /-- geojson: "Feature does not define a Geometry" -/
  | undefinedFeatureGeometry
  /-- geojson: "invalid Feature ID type %T" -/
  | invalidFeatureID
  /-- geojson: "invalid Feature Geometry Type value %s" (decode dispatch) -/
  | invalidFeatureGeometryType
  /-- geojson: "invalid Feature Geometry type %T" (encode dispatch) -/
  | invalidFeatureGeometryValue
  deriving DecidableEq

/-- Outcome of a Go computation that may return an error or panic. -/
inductive Abort where
  | panic (p : GoPanic)
  | err (e : Err)
  deriving DecidableEq

/-- Go slice indexing with an `int` index: panics (models as `.error (.panic _)`)
when out of bounds. -/
def goIndexZ {α : Type} (xs : List α) (i : ℤ) : Except Abort α :=
  if h : 0 ≤ i ∧ i < (xs.length : ℤ) then
    .ok (xs.get ⟨i.toNat, by omega⟩)
  else
    .error (.panic (.indexOutOfRange i xs.length))

/-! ## The s2 value model -/

/-- `s2.LatLng`, recorded by its degree values (exact rationals). -/
structure LatLng where
  lat : ℚ
  lng : ℚ
  deriving DecidableEq

/-- `s2.Point`.  The claims under study never depend on the unit-vector
representation, only on the round trip `LatLngFromPoint (PointFromLatLng x)`,
which is exact "up to floating-point representation"; the model therefore
carries the originating `LatLng`. -/
structure Point where
  ll : LatLng
  deriving DecidableEq

def LatLngFromDegrees (lat lng : ℚ) : LatLng := ⟨lat, lng⟩

def PointFromLatLng (x : LatLng) : Point := ⟨x⟩

def LatLngFromPoint (p : Point) : LatLng := p.ll

/-- `s2.Loop`: an open vertex list plus the nesting depth assigned when the
loop is placed in a polygon (fresh loops have depth 0). -/
structure Loop where
  vertices : List Point
  depth : ℕ
  deriving DecidableEq

/-- `s2.LoopFromPoints`. -/
def LoopFromPoints (ps : List Point) : Loop := ⟨ps, 0⟩

def Loop.numVertices (l : Loop) : ℕ := l.vertices.length

/-- `s2.Loop.IsHole`: odd nesting depth. -/
def Loop.isHole (l : Loop) : Bool := l.depth % 2 = 1

/-- `s2.Loop.Invert`: reverses the vertex order (complementing the region). -/
def Loop.invert (l : Loop) : Loop := ⟨l.vertices.reverse, l.depth⟩

/-- `s2.Loop.Vertex(i)`: direct slice access, panics out of range. -/
def Loop.vertexGo (l : Loop) (i : ℤ) : Except Abort Point :=
  goIndexZ l.vertices i

/-- The geometric black-box capabilities of the s2 library that the codec
consumes.  `isNormalizedPts`/`containsPts` are applied to a loop's vertex
list; `depthsOf` models the nesting-depth assignment of `s2.PolygonFromLoops`. -/
structure S2Model where
  isNormalizedPts : List Point → Bool
  containsPts : List Point → Point → Bool
  depthsOf : List (List Point) → List ℕ

/-- `s2.Loop.Normalize`: invert the loop unless it is already normalized. -/
def Loop.normalize (m : S2Model) (l : Loop) : Loop :=
  if m.isNormalizedPts l.vertices then l else l.invert

/-- `s2.Loop.ContainsPoint` (boundary containment probe). -/
def Loop.containsPoint (m : S2Model) (l : Loop) (p : Point) : Bool :=
  m.containsPts l.vertices p

/-- `s2.Loop.OrientedVertex(i)`: reproduces the index arithmetic of the Go
source (`j := i - n; if j < 0 { j = i }; if hole { j = n - 1 - j }`),
including the panic on a resulting out-of-range index. -/
def Loop.orientedVertexGo (l : Loop) (i : ℕ) : Except Abort Point :=
  let n : ℤ := l.vertices.length
  let j0 : ℤ := if (i : ℤ) - n < 0 then (i : ℤ) else (i : ℤ) - n
  let j : ℤ := if l.isHole then n - 1 - j0 else j0
  goIndexZ l.vertices j

/-- `s2.Polygon`: a flat loop list (each loop carrying its depth). -/
structure Polygon where
  loops : List Loop
  deriving DecidableEq

/-- `s2.PolygonFromLoops`: stores the loops with nesting depths assigned by
the geometric oracle. -/
def PolygonFromLoops (m : S2Model) (ls : List Loop) : Polygon :=
  ⟨ls.mapIdx fun i l => ⟨l.vertices, (m.depthsOf (ls.map Loop.vertices)).getD i 0⟩⟩

/-! ## geoutil.go: the precision codec -/

def PrecisionMax : ℤ := 0
def PrecisionE5 : ℤ := 1
def PrecisionE6 : ℤ := 2
def PrecisionE7 : ℤ := 3

/-- Go `math.Round`: round half away from zero. -/
def goRound (q : ℚ) : ℤ :=
  if q < 0 then -⌊-q + 1 / 2⌋ else ⌊q + 1 / 2⌋

def precisionMax (a : ℚ) : ℚ := a

def precisionE5 (a : ℚ) : ℚ := (goRound (a * 100000) : ℚ) / 100000

def precisionE6 (a : ℚ) : ℚ := (goRound (a * 1000000) : ℚ) / 1000000

def precisionE7 (a : ℚ) : ℚ := (goRound (a * 10000000) : ℚ) / 10000000

def selectPrecisionFunc (precision : ℤ) : Except Abort (ℚ → ℚ) :=
  if precision = PrecisionMax then .ok precisionMax
  else if precision = PrecisionE5 then .ok precisionE5
  else if precision = PrecisionE6 then .ok precisionE6
  else if precision = PrecisionE7 then .ok precisionE7
  else .error (.err (.invalidPrecision precision))

/-- geoutil.pointCoordinates: serialized order is (lng, lat). -/
def pointCoordinates (point : Point) (precisionFunc : ℚ → ℚ) : List ℚ :=
  let latLng := LatLngFromPoint point
  [precisionFunc latLng.lng, precisionFunc latLng.lat]

def PointCoordinates (point : Point) (precision : ℤ) : Except Abort (List ℚ) := do
  let precisionFunc ← selectPrecisionFunc precision
  return pointCoordinates point precisionFunc

/-- Helper for geoutil.loopCoordinates: the loop writing
`lcs[j] = pointCoordinates(loop.OrientedVertex(j), f)` for `j < nv`. -/
def loopCoordinatesGo (loop : Loop) (precisionFunc : ℚ → ℚ) :
    ℕ → Except Abort (List (List ℚ))
  | 0 => .ok []
  | Nat.succ k => do
    let done ← loopCoordinatesGo loop precisionFunc k
    let p ← loop.orientedVertexGo k
    return done ++ [pointCoordinates p precisionFunc]

/-- geoutil.loopCoordinates: emits the oriented vertices and then repeats the
first coordinate pair (`lcs[nv] = lcs[0]`). -/
def loopCoordinates (loop : Loop) (precisionFunc : ℚ → ℚ) :
    Except Abort (List (List ℚ)) := do
  let nv := loop.numVertices
  if nv = 0 then
    return []
  let lcs ← loopCoordinatesGo loop precisionFunc nv
  return lcs ++ lcs.take 1

def LoopCoordinates (loop : Loop) (precision : ℤ) :
    Except Abort (List (List ℚ)) := do
  let precisionFunc ← selectPrecisionFunc precision
  loopCoordinates loop precisionFunc

/-- The run partition of a polygon's loop list shared by
geoutil.PolygonCoordinates and wkb.encodeWKBMultiPolygon: a run starts at the
current loop and extends through the immediately following holes (both Go
sources advance an index while `IsHole()` holds). -/
def runsPartition : List Loop → List (List Loop)
  | [] => []
  | l :: ls =>
    (l :: ls.takeWhile Loop.isHole) :: runsPartition (ls.dropWhile Loop.isHole)
termination_by ls => ls.length
decreasing_by
  simp only [List.length_cons]
  exact Nat.lt_succ_of_le (List.dropWhile_sublist _).length_le

def loopListCoordinates (run : List Loop) (precisionFunc : ℚ → ℚ) :
    Except Abort (List (List (List ℚ))) :=
  match run with
  | [] => .ok []
  | l :: ls => do
    let c ← loopCoordinates l precisionFunc
    let cs ← loopListCoordinates ls precisionFunc
    return c :: cs

def runListCoordinates (runs : List (List Loop)) (precisionFunc : ℚ → ℚ) :
    Except Abort (List (List (List (List ℚ)))) :=
  match runs with
  | [] => .ok []
  | r :: rs => do
    let c ← loopListCoordinates r precisionFunc
    let cs ← runListCoordinates rs precisionFunc
    return c :: cs

/-- geoutil.PolygonCoordinates: one coordinate group per maximal
shell-then-holes run. -/
def PolygonCoordinates (polygon : Polygon) (precision : ℤ) :
    Except Abort (List (List (List (List ℚ)))) := do
  let precisionFunc ← selectPrecisionFunc precision
  runListCoordinates (runsPartition polygon.loops) precisionFunc

/-! ## geoutil.go: coordinate decoding (ring assembly, GeoJSON path) -/

/-- geoutil.unmarshalLatLng: internal constructor order is (lat, lng) =
(coords[1], coords[0]). -/
def unmarshalLatLng (coords : List ℚ) : Except Abort LatLng :=
  match coords with
  | [a, b] => .ok (LatLngFromDegrees b a)
  | _ => .error (.err (.dimension coords.length))

def unmarshalPoint (coords : List ℚ) : Except Abort Point := do
  let latLng ← unmarshalLatLng coords
  return PointFromLatLng latLng

def unmarshalPointList (coords : List (List ℚ)) : Except Abort (List Point) :=
  match coords with
  | [] => .ok []
  | c :: cs => do
    let p ← unmarshalPoint c
    let ps ← unmarshalPointList cs
    return p :: ps

/-- The loop body of geoutil.unmarshalLoops; `shell` is the length the output
slice had when the call began, `acc` is the slice built so far. -/
def unmarshalLoopsGo (m : S2Model) (shell : ℕ) (acc : List Loop) :
    List (List (List ℚ)) → Except Abort (List Loop)
  | [] => .ok acc
  | linearRingCoords :: rest => do
    let points ← unmarshalPointList linearRingCoords
    -- `if j := len(points) - 1; points[0] == points[j]`: evaluating
    -- `points[0]` panics when the ring is empty.
    let p0 ← goIndexZ points 0
    let pj ← goIndexZ points ((points.length : ℤ) - 1)
    let points := if p0 = pj then points.dropLast else points
    let loop := LoopFromPoints points
    let loop ←
      if acc.length ≤ shell then
        pure (loop.normalize m)
      else do
        let shellLoop ← goIndexZ acc (shell : ℤ)
        let v ← shellLoop.vertexGo 0
        pure (if loop.containsPoint m v then loop.invert else loop)
    unmarshalLoopsGo m shell (acc ++ [loop]) rest

/-- geoutil.unmarshalLoops. -/
def unmarshalLoops (m : S2Model) (loops : List Loop)
    (polygonCoords : List (List (List ℚ))) : Except Abort (List Loop) :=
  unmarshalLoopsGo m loops.length loops polygonCoords

def PointFromPointCoordinates (coords : List ℚ) : Except Abort Point :=
  unmarshalPoint coords

def unmarshalLatLngList (coords : List (List ℚ)) : Except Abort (List LatLng) :=
  match coords with
  | [] => .ok []
  | c :: cs => do
    let x ← unmarshalLatLng c
    let xs ← unmarshalLatLngList cs
    return x :: xs

/-- `s2.PolylineFromLatLngs`. -/
def PolylineFromLatLngs (latLngs : List LatLng) : List Point :=
  latLngs.map PointFromLatLng

def PolylineFromLineStringCoordinates (coords : List (List ℚ)) :
    Except Abort (List Point) := do
  let latLngs ← unmarshalLatLngList coords
  return PolylineFromLatLngs latLngs

def PolygonFromPolygonCoordinates (m : S2Model) (coords : List (List (List ℚ))) :
    Except Abort Polygon := do
  let loops ← unmarshalLoops m [] coords
  return PolygonFromLoops m loops

def PointsFromMultiPointCoordinates (coords : List (List ℚ)) :
    Except Abort (List Point) :=
  unmarshalPointList coords

def PolylinesFromMultiLineStringCoordinates (coords : List (List (List ℚ))) :
    Except Abort (List (List Point)) :=
  match coords with
  | [] => .ok []
  | c :: cs => do
    let p ← PolylineFromLineStringCoordinates c
    let ps ← PolylinesFromMultiLineStringCoordinates cs
    return p :: ps

def unmarshalLoopsGroups (m : S2Model) (loops : List Loop) :
    List (List (List (List ℚ))) → Except Abort (List Loop)
  | [] => .ok loops
  | polygonCoords :: rest => do
    let loops ← unmarshalLoops m loops polygonCoords
    unmarshalLoopsGroups m loops rest

/-- geoutil.PolygonFromMultiPolygonCoordinates: folds unmarshalLoops over the
embedded polygon coordinate lists, accumulating one flat loop list. -/
def PolygonFromMultiPolygonCoordinates (m : S2Model)
    (coords : List (List (List (List ℚ)))) : Except Abort Polygon := do
  let loops ← unmarshalLoopsGroups m [] coords
  return PolygonFromLoops m loops

/-! ## encoding/wkb: the wire model

The WKB byte stream is modelled as a list of `Wire` tokens: individual bytes
are literal (`.byte`), while an 8-byte IEEE float64 is one `.f64` token
carrying its exact value and the byte order it was written with (the numeric
value of a float is not recoverable from rational-valued bytes; every claim
reads floats back with the same byte order they were written with, which the
token checks). -/

inductive ByteOrder where
  | big
  | little
  deriving DecidableEq

inductive Wire where
  | byte (b : ℕ)
  | f64 (order : ByteOrder) (val : ℚ)
  deriving DecidableEq

def wkbXDR : ℕ := 0
def wkbNDR : ℕ := 1
def wkbPoint : ℕ := 1
def wkbLineString : ℕ := 2
def wkbPolygon : ℕ := 3
def wkbMultiPoint : ℕ := 4
def wkbMultiLineString : ℕ := 5
def wkbMultiPolygon : ℕ := 6

/-- `io.ByteReader.ReadByte` on the token stream. -/
def readByteW : List Wire → Except Abort (ℕ × List Wire)
  | [] => .error (.err .eof)
  | .byte b :: rest => .ok (b, rest)
  | .f64 _ _ :: _ => .error (.err .wireMismatch)

/-- Read `k` bytes (`binary.Read` of a fixed-size value). -/
def readBytesW : ℕ → List Wire → Except Abort (List ℕ × List Wire)
  | 0, s => .ok ([], s)
  | Nat.succ k, s => do
    let (b, s) ← readByteW s
    let (bs, s) ← readBytesW k s
    return (b :: bs, s)

def u32ofBytesBE (bs : List ℕ) : ℕ := bs.foldl (fun a b => a * 256 + b) 0

def u32ofBytes : ByteOrder → List ℕ → ℕ
  | .big, bs => u32ofBytesBE bs
  | .little, bs => u32ofBytesBE bs.reverse

/-- `binary.Read(r, order, &uint32)`. -/
def readU32 (order : ByteOrder) (s : List Wire) :
    Except Abort (ℕ × List Wire) := do
  let (bs, s) ← readBytesW 4 s
  return (u32ofBytes order bs, s)

/-- `binary.Read(r, order, &float64)`. -/
def readF64 (order : ByteOrder) : List Wire → Except Abort (ℚ × List Wire)
  | [] => .error (.err .eof)
  | .f64 o v :: rest =>
    if o = order then .ok (v, rest) else .error (.err .wireMismatch)
  | .byte _ :: _ => .error (.err .wireMismatch)

/-! ## encoding/wkb/decode.go -/

/-- wkb.decodeOrder. -/
def decodeOrder (s : List Wire) : Except Abort (ByteOrder × List Wire) := do
  let (orderByte, s) ← readByteW s
  if orderByte = wkbXDR then return (.big, s)
  else if orderByte = wkbNDR then return (.little, s)
  else .error (.err (.unknownByteOrder orderByte))

/-- wkb.decodeGeometryType. -/
def decodeGeometryType (s : List Wire) (order : ByteOrder) :
    Except Abort (ℕ × List Wire) :=
  readU32 order s

/-- wkb.verifyGeometryType. -/
def verifyGeometryType (s : List Wire) (order : ByteOrder)
    (expectedGeometryType : ℕ) : Except Abort (List Wire) := do
  let (geometryType, s) ← decodeGeometryType s order
  if geometryType = expectedGeometryType then
    return s
  else
    .error (.err (.invalidGeometryType geometryType expectedGeometryType))

/-- wkb.decodePoint: reads (lng, lat) and builds the LatLng as (lat, lng). -/
def decodePoint (s : List Wire) (order : ByteOrder) :
    Except Abort (LatLng × List Wire) := do
  let (lng, s) ← readF64 order s
  let (lat, s) ← readF64 order s
  return (LatLngFromDegrees lat lng, s)

/-- The point-reading loop of wkb.decodeLinearRing / decodeWKBLineString. -/
def readPoints (order : ByteOrder) : ℕ → List Wire →
    Except Abort (List Point × List Wire)
  | 0, s => .ok ([], s)
  | Nat.succ k, s => do
    let (latLng, s) ← decodePoint s order
    let (ps, s) ← readPoints order k s
    return (PointFromLatLng latLng :: ps, s)

/-- wkb.decodeLinearRing: reads a vertex count and that many points, then
drops a repeated closing point.  The closing-point comparison evaluates
`points[0]`, which panics when the ring has zero vertices. -/
def decodeLinearRing (s : List Wire) (order : ByteOrder) :
    Except Abort (Loop × List Wire) := do
  let (n, s) ← readU32 order s
  let (points, s) ← readPoints order n s
  let p0 ← goIndexZ points 0
  let pl ← goIndexZ points ((points.length : ℤ) - 1)
  let points := if p0 = pl then points.dropLast else points
  return (LoopFromPoints points, s)

/-- wkb.decodeWKBPoint. -/
def decodeWKBPoint (s : List Wire) : Except Abort (LatLng × List Wire) := do
  let (order, s) ← decodeOrder s
  let s ← verifyGeometryType s order wkbPoint
  decodePoint s order

def readLatLngs (order : ByteOrder) : ℕ → List Wire →
    Except Abort (List LatLng × List Wire)
  | 0, s => .ok ([], s)
  | Nat.succ k, s => do
    let (latLng, s) ← decodePoint s order
    let (xs, s) ← readLatLngs order k s
    return (latLng :: xs, s)

/-- wkb.decodeWKBLineString. -/
def decodeWKBLineString (s : List Wire) :
    Except Abort (List Point × List Wire) := do
  let (order, s) ← decodeOrder s
  let s ← verifyGeometryType s order wkbLineString
  let (n, s) ← readU32 order s
  let (latLngs, s) ← readLatLngs order n s
  return (PolylineFromLatLngs latLngs, s)

/-- The ring loop of wkb.decodePolygonLoopsPartial: the first ring (index 0)
is normalized; every later ring is probed against `polygonLoops[0].Vertex(1)`
and inverted when it contains that vertex. -/
def decodeRingsGo (m : S2Model) (order : ByteOrder) (acc : List Loop) :
    ℕ → List Wire → Except Abort (List Loop × List Wire)
  | 0, s => .ok (acc, s)
  | Nat.succ k, s => do
    let (loop, s) ← decodeLinearRing s order
    let loop ←
      if acc.length = 0 then
        pure (loop.normalize m)
      else do
        let shellLoop ← goIndexZ acc 0
        let v ← shellLoop.vertexGo 1
        pure (if loop.containsPoint m v then loop.invert else loop)
    decodeRingsGo m order (acc ++ [loop]) k s

/-- wkb.decodePolygonLoopsPartial (the payload after the prefix). -/
def decodePolygonLoopsBody (m : S2Model) (s : List Wire) (order : ByteOrder) :
    Except Abort (List Loop × List Wire) := do
  let (nlr, s) ← readU32 order s
  decodeRingsGo m order [] nlr s

/-- wkb.decodeWKBPolygonLoops. -/
def decodeWKBPolygonLoops (m : S2Model) (s : List Wire) :
    Except Abort (List Loop × List Wire) := do
  let (order, s) ← decodeOrder s
  let s ← verifyGeometryType s order wkbPolygon
  decodePolygonLoopsBody m s order

/-- wkb.decodeWKBPolygonPartial. -/
def decodeWKBPolygonBody (m : S2Model) (s : List Wire) (order : ByteOrder) :
    Except Abort (Polygon × List Wire) := do
  let (polygonLoops, s) ← decodePolygonLoopsBody m s order
  return (PolygonFromLoops m polygonLoops, s)

def readWKBPoints (m : S2Model) : ℕ → List Wire →
    Except Abort (List Point × List Wire)
  | 0, s => .ok ([], s)
  | Nat.succ k, s => do
    let (latLng, s) ← decodeWKBPoint s
    let (ps, s) ← readWKBPoints m k s
    return (PointFromLatLng latLng :: ps, s)

/-- wkb.decodeWKBMultiPoint. -/
def decodeWKBMultiPoint (m : S2Model) (s : List Wire) :
    Except Abort (List Point × List Wire) := do
  let (order, s) ← decodeOrder s
  let s ← verifyGeometryType s order wkbMultiPoint
  let (n, s) ← readU32 order s
  readWKBPoints m n s

def readWKBLineStrings : ℕ → List Wire →
    Except Abort (List (List Point) × List Wire)
  | 0, s => .ok ([], s)
  | Nat.succ k, s => do
    let (polyline, s) ← decodeWKBLineString s
    let (ps, s) ← readWKBLineStrings k s
    return (polyline :: ps, s)

/-- wkb.decodeWKBMultiLineString. -/
def decodeWKBMultiLineString (s : List Wire) :
    Except Abort (List (List Point) × List Wire) := do
  let (order, s) ← decodeOrder s
  let s ← verifyGeometryType s order wkbMultiLineString
  let (n, s) ← readU32 order s
  readWKBLineStrings n s

/-- The embedded-polygon loop of wkb.decodeWKBMultiPolygonPartial: each
embedded value is decoded with its own full prefix, and its loops are
appended to one flat list. -/
def readWKBPolygonLoopLists (m : S2Model) (acc : List Loop) :
    ℕ → List Wire → Except Abort (List Loop × List Wire)
  | 0, s => .ok (acc, s)
  | Nat.succ k, s => do
    let (polygonLoops, s) ← decodeWKBPolygonLoops m s
    readWKBPolygonLoopLists m (acc ++ polygonLoops) k s

/-- wkb.decodeWKBMultiPolygonPartial. -/
def decodeWKBMultiPolygonBody (m : S2Model) (s : List Wire)
    (order : ByteOrder) : Except Abort (Polygon × List Wire) := do
  let (n, s) ← readU32 order s
  let (multiPolygonLoops, s) ← readWKBPolygonLoopLists m [] n s
  return (PolygonFromLoops m multiPolygonLoops, s)

/-- wkb.decodeWKBPolygonOrMultiPolygon: reads the prefix once and dispatches
on the geometry type. -/
def decodeWKBPolygonOrMultiPolygon (m : S2Model) (s : List Wire) :
    Except Abort (Polygon × List Wire) := do
  let (order, s) ← decodeOrder s
  let (geometryType, s) ← decodeGeometryType s order
  if geometryType = wkbPolygon then
    decodeWKBPolygonBody m s order
  else if geometryType = wkbMultiPolygon then
    decodeWKBMultiPolygonBody m s order
  else
    .error (.err (.invalidGeometryTypeEither geometryType wkbPolygon wkbMultiPolygon))

/-- The destination shapes accepted by wkb.Unmarshal's type switch.  The
`unsupported` constructor stands for every destination value whose type is
none of the six supported pointer types; the payload keeps the value so
"left unmodified" is observable. -/
inductive Dest where
  | latLng (v : LatLng)
  | point (v : Point)
  | polyline (v : List Point)
  | polygon (v : Polygon)
  | points (v : List Point)
  | polylines (v : List (List Point))
  | unsupported (v : ℕ)
  deriving DecidableEq

/-- wkb.Unmarshal: dispatches on the destination shape; a destination shape
with no case in the switch falls through and the function returns nil. -/
def Unmarshal (m : S2Model) (data : List Wire) (v : Dest) :
    Except Abort Dest :=
  match v with
  | .latLng _ => do
    let (latLng, _) ← decodeWKBPoint data
    return .latLng latLng
  | .point _ => do
    let (latLng, _) ← decodeWKBPoint data
    return .point (PointFromLatLng latLng)
  | .polyline _ => do
    let (lineString, _) ← decodeWKBLineString data
    return .polyline lineString
  | .polygon _ => do
    let (polygon, _) ← decodeWKBPolygonOrMultiPolygon m data
    return .polygon polygon
  | .points _ => do
    let (multiPoint, _) ← decodeWKBMultiPoint m data
    return .points multiPoint
  | .polylines _ => do
    let (multiLineString, _) ← decodeWKBMultiLineString data
    return .polylines multiLineString
  | .unsupported x => .ok (.unsupported x)

/-! ## encoding/wkb/decode.go: the encode half

Encoding runs against an abstract byte sink (`io.Writer`): each Go `Write`
call hands the sink one chunk of wire tokens and may fail with an error,
which the encoder is expected to propagate verbatim. -/

structure Sink (σ : Type) where
  writeChunk : σ → List Wire → Except Abort σ

def bytesOfU32BE (n : ℕ) : List ℕ :=
  [n / 16777216 % 256, n / 65536 % 256, n / 256 % 256, n % 256]

def bytesOfU32 : ByteOrder → ℕ → List ℕ
  | .big, n => bytesOfU32BE n
  | .little, n => (bytesOfU32BE n).reverse

/-- The chunk written by `binary.Write(w, order, uint32(n))` (Go's uint32
conversion truncates mod 2^32). -/
def u32chunk (order : ByteOrder) (n : ℕ) : List Wire :=
  (bytesOfU32 order (n % 4294967296)).map .byte

/-- `w.WriteByte(c)`. -/
def writeByteS {σ : Type} (S : Sink σ) (st : σ) (b : ℕ) : Except Abort σ :=
  S.writeChunk st [.byte (b % 256)]

/-- `binary.Write(w, order, uint32(n))`. -/
def writeU32S {σ : Type} (S : Sink σ) (st : σ) (order : ByteOrder) (n : ℕ) :
    Except Abort σ :=
  S.writeChunk st (u32chunk order n)

/-- `binary.Write(w, order, float64(v))`. -/
def writeF64S {σ : Type} (S : Sink σ) (st : σ) (order : ByteOrder) (v : ℚ) :
    Except Abort σ :=
  S.writeChunk st [.f64 order v]

/-- wkb.encodePointFromLatLng: always big-endian, order (lng, lat). -/
def encodePointFromLatLng {σ : Type} (S : Sink σ) (st : σ) (latLng : LatLng) :
    Except Abort σ := do
  let st ← writeF64S S st .big latLng.lng
  writeF64S S st .big latLng.lat

/-- wkb.encodePoint. -/
def encodePoint {σ : Type} (S : Sink σ) (st : σ) (point : Point) :
    Except Abort σ :=
  encodePointFromLatLng S st (LatLngFromPoint point)

/-- The vertex loop of wkb.encodeLinearRing: writes `OrientedVertex(i)` for
`i` counting up, `count` vertices remaining. -/
def encodeOrientedFrom {σ : Type} (S : Sink σ) (l : Loop) :
    ℕ → ℕ → σ → Except Abort σ
  | _, 0, st => .ok st
  | i, Nat.succ k, st => do
    let p ← l.orientedVertexGo i
    let st ← encodePoint S st p
    encodeOrientedFrom S l (i + 1) k st

/-- wkb.encodeLinearRing: writes vertex count `NumVertices()+1` and then the
oriented vertices, re-closing the ring (`OrientedVertex(nv)` is vertex 0
again). -/
def encodeLinearRing {σ : Type} (S : Sink σ) (st : σ) (l : Loop) :
    Except Abort σ := do
  let np := l.numVertices + 1
  let st ← writeU32S S st .big np
  encodeOrientedFrom S l 0 np st

/-- wkb.encodeWKBPoint. -/
def encodeWKBPoint {σ : Type} (S : Sink σ) (st : σ) (point : Point) :
    Except Abort σ := do
  let st ← writeByteS S st wkbXDR
  let st ← writeU32S S st .big wkbPoint
  encodePoint S st point

/-- wkb.encodeWKBPointFromLatLng. -/
def encodeWKBPointFromLatLng {σ : Type} (S : Sink σ) (st : σ)
    (latLng : LatLng) : Except Abort σ := do
  let st ← writeByteS S st wkbXDR
  let st ← writeU32S S st .big wkbPoint
  encodePointFromLatLng S st latLng

def encodePolylinePoints {σ : Type} (S : Sink σ) :
    List Point → σ → Except Abort σ
  | [], st => .ok st
  | p :: ps, st => do
    let st ← encodePoint S st p
    encodePolylinePoints S ps st

/-- wkb.encodeWKBLineString. -/
def encodeWKBLineString {σ : Type} (S : Sink σ) (st : σ)
    (polyline : List Point) : Except Abort σ := do
  let st ← writeByteS S st wkbXDR
  let st ← writeU32S S st .big wkbLineString
  let st ← writeU32S S st .big polyline.length
  encodePolylinePoints S polyline st

/-- The ring loop of wkb.encodeWKBPolygon.  The Go source reads

    if err := encodeLinearRing(w, loop); err != nil {
        return nil
    }

so a sink error from a ring is swallowed and reported as success; a Go panic
(modelled as `.panic`) is not an `error` value and still unwinds. -/
def encodeRingsGo {σ : Type} (S : Sink σ) : List Loop → σ → Except Abort σ
  | [], st => .ok st
  | l :: ls, st =>
    match encodeLinearRing S st l with
    | .error (.panic p) => .error (.panic p)
    | .error (.err _) => .ok st
    | .ok st => encodeRingsGo S ls st

/-- wkb.encodeWKBPolygon. -/
def encodeWKBPolygon {σ : Type} (S : Sink σ) (st : σ) (loops : List Loop) :
    Except Abort σ := do
  let st ← writeByteS S st wkbXDR
  let st ← writeU32S S st .big wkbPolygon
  let st ← writeU32S S st .big loops.length
  encodeRingsGo S loops st

def encodeWKBPointList {σ : Type} (S : Sink σ) :
    List Point → σ → Except Abort σ
  | [], st => .ok st
  | p :: ps, st => do
    let st ← encodeWKBPoint S st p
    encodeWKBPointList S ps st

/-- wkb.encodeWKBMultiPoint. -/
def encodeWKBMultiPoint {σ : Type} (S : Sink σ) (st : σ)
    (points : List Point) : Except Abort σ := do
  let st ← writeByteS S st wkbXDR
  let st ← writeU32S S st .big wkbMultiPoint
  let st ← writeU32S S st .big points.length
  encodeWKBPointList S points st

def encodeWKBLineStringList {σ : Type} (S : Sink σ) :
    List (List Point) → σ → Except Abort σ
  | [], st => .ok st
  | pl :: pls, st => do
    let st ← encodeWKBLineString S st pl
    encodeWKBLineStringList S pls st

/-- wkb.encodeWKBMultiLineString. -/
def encodeWKBMultiLineString {σ : Type} (S : Sink σ) (st : σ)
    (polylines : List (List Point)) : Except Abort σ := do
  let st ← writeByteS S st wkbXDR
  let st ← writeU32S S st .big wkbMultiLineString
  let st ← writeU32S S st .big polylines.length
  encodeWKBLineStringList S polylines st

def encodeRunListGo {σ : Type} (S : Sink σ) :
    List (List Loop) → σ → Except Abort σ
  | [], st => .ok st
  | run :: runs, st => do
    let st ← encodeWKBPolygon S st run
    encodeRunListGo S runs st

/-- wkb.encodeWKBMultiPolygon: counts the shells; one shell or fewer is
emitted as a plain Polygon over the whole flat loop list, otherwise as a
MultiPolygon with one embedded Polygon per shell run (the Go index loop
`j := i+1; for ; j < nl && polygon.Loop(j).IsHole(); j++` produces exactly
`runsPartition`). -/
def encodeWKBMultiPolygon {σ : Type} (S : Sink σ) (st : σ)
    (polygon : Polygon) : Except Abort σ := do
  let ns := (polygon.loops.filter fun l => !l.isHole).length
  if ns ≤ 1 then
    encodeWKBPolygon S st polygon.loops
  else do
    let st ← writeByteS S st wkbXDR
    let st ← writeU32S S st .big wkbMultiPolygon
    let st ← writeU32S S st .big ns
    encodeRunListGo S (runsPartition polygon.loops) st

/-- The geometry variants accepted by wkb.Encoder.Encode's type switch
(s2.LatLng, s2.Point, *s2.Polyline, []s2.Point, []*s2.Polyline,
*s2.Polygon). -/
inductive Geom where
  | latLng (v : LatLng)
  | point (v : Point)
  | polyline (v : List Point)
  | points (v : List Point)
  | polylines (v : List (List Point))
  | polygon (v : Polygon)
  deriving DecidableEq

/-- wkb.Encoder.Encode. -/
def Encode {σ : Type} (S : Sink σ) (st : σ) : Geom → Except Abort σ
  | .latLng v => encodeWKBPointFromLatLng S st v
  | .point v => encodeWKBPoint S st v
  | .polyline v => encodeWKBLineString S st v
  | .points v => encodeWKBMultiPoint S st v
  | .polylines v => encodeWKBMultiLineString S st v
  | .polygon v => encodeWKBMultiPolygon S st v

/-- The `bytes.Buffer` sink used by wkb.Marshal: appends and never fails. -/
def bufferSink : Sink (List Wire) :=
  ⟨fun st chunk => .ok (st ++ chunk)⟩

/-- wkb.Marshal. -/
def Marshal (v : Geom) : Except Abort (List Wire) :=
  Encode bufferSink [] v

/-! ## geojson (encoding/wkb/wkb.go, package geojson)

JSON documents are modelled as parsed values; an object is a field list in
document order.  The semantics of Go's `encoding/json` struct
marshalling/unmarshalling (struct tags, `omitempty`, `json.RawMessage`
nil-vs-"null", last-duplicate-key-wins lookup, `null` leaving a target's zero
value in place) are reproduced where the raw structs of the source use them. -/

inductive JSONVal where
  | null
  | boolean (b : Bool)
  | num (q : ℚ)
  | str (s : String)
  | arr (items : List JSONVal)
  | obj (fields : List (String × JSONVal))

/-- Field lookup in a JSON object: Go's encoding/json keeps the last
occurrence of a duplicated key. -/
def jlookup (k : String) (fs : List (String × JSONVal)) : Option JSONVal :=
  fs.foldl (fun acc f => if f.1 = k then some f.2 else acc) none

/-- `json.Unmarshal` into a `float64`: a number is taken as is, `null` leaves
the zero value, anything else is a type error. -/
def jsonToNum : JSONVal → Except Abort ℚ
  | .num q => .ok q
  | .null => .ok 0
  | _ => .error (.err .jsonType)

def jsonNumList : List JSONVal → Except Abort (List ℚ)
  | [] => .ok []
  | j :: js => do
    let q ← jsonToNum j
    let qs ← jsonNumList js
    return q :: qs

/-- `json.Unmarshal` into `[]float64`: `null` leaves the zero value (the
freshly made empty slice). -/
def jsonToF1 : JSONVal → Except Abort (List ℚ)
  | .null => .ok []
  | .arr items => jsonNumList items
  | _ => .error (.err .jsonType)

def jsonF1List : List JSONVal → Except Abort (List (List ℚ))
  | [] => .ok []
  | j :: js => do
    let x ← jsonToF1 j
    let xs ← jsonF1List js
    return x :: xs

/-- `json.Unmarshal` into `[][]float64`. -/
def jsonToF2 : JSONVal → Except Abort (List (List ℚ))
  | .null => .ok []
  | .arr items => jsonF1List items
  | _ => .error (.err .jsonType)

def jsonF2List : List JSONVal → Except Abort (List (List (List ℚ)))
  | [] => .ok []
  | j :: js => do
    let x ← jsonToF2 j
    let xs ← jsonF2List js
    return x :: xs

/-- `json.Unmarshal` into `[][][]float64`. -/
def jsonToF3 : JSONVal → Except Abort (List (List (List ℚ)))
  | .null => .ok []
  | .arr items => jsonF2List items
  | _ => .error (.err .jsonType)

def jsonF3List : List JSONVal → Except Abort (List (List (List (List ℚ))))
  | [] => .ok []
  | j :: js => do
    let x ← jsonToF3 j
    let xs ← jsonF3List js
    return x :: xs

/-- `json.Unmarshal` into `[][][][]float64`. -/
def jsonToF4 : JSONVal → Except Abort (List (List (List (List ℚ))))
  | .null => .ok []
  | .arr items => jsonF3List items
  | _ => .error (.err .jsonType)

/-- The JSON encodings of coordinate arrays (json.Marshal of the nested
float64 slices; a nil slice marshals as null, handled at the call sites that
can produce one). -/
def f1ToJSON (xs : List ℚ) : JSONVal := .arr (xs.map .num)

def f2ToJSON (xs : List (List ℚ)) : JSONVal := .arr (xs.map f1ToJSON)

def f3ToJSON (xs : List (List (List ℚ))) : JSONVal := .arr (xs.map f2ToJSON)

def f4ToJSON (xs : List (List (List (List ℚ)))) : JSONVal :=
  .arr (xs.map f3ToJSON)

/-- geojson.Feature.  `ID` is an arbitrary decoded JSON value (`interface{}`;
a nil interface is `.null`), `Properties` distinguishes a nil map (`none`)
from a present one, `Geometry` is the optional geometry value. -/
structure Feature where
  id : JSONVal
  properties : Option (List (String × JSONVal))
  geometry : Option Geom
  precision : ℤ

/-- geojson.rawFeature, as filled in by `json.Unmarshal(data, rf)`: `type`
must be a string (absent or null leaves ""), `properties` must be an object
(absent or null leaves the nil map), `id` takes any value, and `geometry` is
a `json.RawMessage` - nil (`none`) exactly when the key is absent. -/
structure RawFeature where
  id : JSONVal
  ftype : String
  properties : Option (List (String × JSONVal))
  geometry : Option JSONVal

def parseRawFeature (j : JSONVal) : Except Abort RawFeature :=
  match j with
  | .obj fs => do
    let ftype ← match jlookup "type" fs with
      | none => Except.ok ""
      | some .null => Except.ok ""
      | some (.str s) => Except.ok s
      | some _ => Except.error (.err .jsonType)
    let properties ← match jlookup "properties" fs with
      | none => Except.ok none
      | some .null => Except.ok none
      | some (.obj pfs) => Except.ok (some pfs)
      | some _ => Except.error (.err .jsonType)
    let id := (jlookup "id" fs).getD .null
    let geometry := jlookup "geometry" fs
    return ⟨id, ftype, properties, geometry⟩
  | _ => .error (.err .jsonType)

/-- geojson.rawGeometry, as filled by `json.Unmarshal`: `type` must be a
string, `coordinates` is a RawMessage (nil exactly when absent). -/
structure RawGeometry where
  gtype : String
  coordinates : Option JSONVal

def parseRawGeometry (j : JSONVal) : Except Abort RawGeometry :=
  match j with
  | .obj fs => do
    let gtype ← match jlookup "type" fs with
      | none => Except.ok ""
      | some .null => Except.ok ""
      | some (.str s) => Except.ok s
      | some _ => Except.error (.err .jsonType)
    return ⟨gtype, jlookup "coordinates" fs⟩
  | _ => .error (.err .jsonType)

/-- `json.Unmarshal(rg.Coordinates, ...)` on a raw message: a nil RawMessage
(absent key) is an immediate unmarshal error. -/
def rawCoordinates (c : Option JSONVal) : Except Abort JSONVal :=
  match c with
  | none => .error (.err .jsonEmpty)
  | some v => .ok v

/-- The Feature ID type check (`case string, float64, nil:`). -/
def validFeatureID : JSONVal → Bool
  | .str _ => true
  | .num _ => true
  | .null => true
  | _ => false

/-- geojson.Feature.UnmarshalJSON.  Checks the `type` literal, then the
three-way state of the `geometry` key (absent / JSON null / object), then the
ID type, then dispatches on the geometry's `type` string. -/
def featureUnmarshalJSON (m : S2Model) (j : JSONVal) (f : Feature) :
    Except Abort Feature := do
  let rf ← parseRawFeature j
  if rf.ftype ≠ "Feature" then
    .error (.err (.invalidFeatureType rf.ftype))
  else match rf.geometry with
  | none => .error (.err .undefinedFeatureGeometry)
  | some geomRaw => do
    if !validFeatureID rf.id then
      .error (.err .invalidFeatureID)
    else do
      let f ←
        match geomRaw with
        | JSONVal.null => pure f
        | geomRaw => do
          let rg ← parseRawGeometry geomRaw
          if rg.gtype = "Point" then do
            let pointCoords ← jsonToF1 (← rawCoordinates rg.coordinates)
            let point ← PointFromPointCoordinates pointCoords
            pure { f with geometry := some (.point point) }
          else if rg.gtype = "LineString" then do
            let lineStringCoords ← jsonToF2 (← rawCoordinates rg.coordinates)
            let polyline ← PolylineFromLineStringCoordinates lineStringCoords
            pure { f with geometry := some (.polyline polyline) }
          else if rg.gtype = "Polygon" then do
            let polygonCoords ← jsonToF3 (← rawCoordinates rg.coordinates)
            let polygon ← PolygonFromPolygonCoordinates m polygonCoords
            pure { f with geometry := some (.polygon polygon) }
          else if rg.gtype = "MultiPoint" then do
            let multipointCoords ← jsonToF2 (← rawCoordinates rg.coordinates)
            let points ← PointsFromMultiPointCoordinates multipointCoords
            pure { f with geometry := some (.points points) }
          else if rg.gtype = "MultiLineString" then do
            let coords ← jsonToF3 (← rawCoordinates rg.coordinates)
            let polylines ← PolylinesFromMultiLineStringCoordinates coords
            pure { f with geometry := some (.polylines polylines) }
          else if rg.gtype = "MultiPolygon" then do
            let coords ← jsonToF4 (← rawCoordinates rg.coordinates)
            let polygon ← PolygonFromMultiPolygonCoordinates m coords
            pure { f with geometry := some (.polygon polygon) }
          else
            .error (.err .invalidFeatureGeometryType)
      return { f with id := rf.id, properties := rf.properties }

/-- geojson.marshalPolygon: one coordinate group means `"Polygon"`, any other
count means `"MultiPolygon"`; the rawGeometry struct marshals with fields in
declaration order (type, coordinates). -/
def marshalPolygon (polygon : Polygon) (precision : ℤ) :
    Except Abort JSONVal := do
  let polygonCoordinates ← PolygonCoordinates polygon precision
  match polygonCoordinates with
  | [single] =>
    return .obj [("type", .str "Polygon"), ("coordinates", f3ToJSON single)]
  | pcs =>
    return .obj [("type", .str "MultiPolygon"), ("coordinates", f4ToJSON pcs)]

/-- The `id` field with `omitempty`: dropped exactly when the interface is
nil. -/
def idFieldJSON : JSONVal → List (String × JSONVal)
  | .null => []
  | id => [("id", id)]

/-- `json.Marshal` of geojson.rawFeature: `id` has `omitempty` and is dropped
exactly when the interface is nil; `type` and `properties` are always
present (a nil map marshals as null); `geometry` has no `omitempty`, so the
key is always present - a nil RawMessage marshals as JSON null. -/
def rawFeatureToJSON (id : JSONVal) (properties : Option (List (String × JSONVal)))
    (geometry : Option JSONVal) : JSONVal :=
  .obj (idFieldJSON id ++
    [("type", .str "Feature"),
     ("properties", (properties.map JSONVal.obj).getD .null),
     ("geometry", geometry.getD .null)])

/-- geojson.Feature.MarshalJSON: validates the ID type, emits without a
geometry payload when no geometry is set, and otherwise accepts only a
polygon geometry. -/
def featureMarshalJSON (f : Feature) : Except Abort JSONVal := do
  if !validFeatureID f.id then
    .error (.err .invalidFeatureID)
  else match f.geometry with
  | none => return rawFeatureToJSON f.id f.properties none
  | some (.polygon polygon) => do
    let data ← marshalPolygon polygon f.precision
    return rawFeatureToJSON f.id f.properties (some data)
  | some _ => .error (.err .invalidFeatureGeometryValue)

/-- geojson.FeatureCollection: `Features` distinguishes a nil slice. -/
structure FeatureCollection where
  features : Option (List Feature)

def featureListToJSON : List Feature → Except Abort (List JSONVal)
  | [] => .ok []
  | f :: fs => do
    let j ← featureMarshalJSON f
    let js ← featureListToJSON fs
    return j :: js

/-- geojson.FeatureCollection.MarshalJSON: `type` then `features`; the
features RawMessage is always non-empty (a nil slice marshals as JSON null),
so its `omitempty` never fires and the key is always emitted. -/
def featureCollectionMarshalJSON (fc : FeatureCollection) :
    Except Abort JSONVal := do
  let data ←
    match fc.features with
    | none => pure JSONVal.null
    | some fs => do
      let js ← featureListToJSON fs
      pure (JSONVal.arr js)
  return .obj [("type", .str "FeatureCollection"), ("features", data)]

/-! ## Specification-level descriptions of ring assembly

`orientRings` is the common shape of both decode paths, with the probed
reference-vertex index as an explicit parameter: the first ring of a grouping
unit is normalized, every later ring is probed against
`shell.Vertex(probeIdx)` and inverted when it contains that vertex.  The
theorems below prove that the WKB path is `orientRings 1` and the GeoJSON
path is `orientRings 0` of the parsed raw rings. -/

def orientHoles (m : S2Model) (probeIdx : ℤ) (sl : Loop) :
    List Loop → Except Abort (List Loop)
  | [] => .ok []
  | h :: hs => do
    let v ← sl.vertexGo probeIdx
    let h := if h.containsPoint m v then h.invert else h
    let rest ← orientHoles m probeIdx sl hs
    return h :: rest

def orientRings (m : S2Model) (probeIdx : ℤ) :
    List Loop → Except Abort (List Loop)
  | [] => .ok []
  | r :: rs => do
    let sl := r.normalize m
    let rest ← orientHoles m probeIdx sl rs
    return sl :: rest

/-- Closing-point strip: drop the final point when it repeats the first. -/
def stripClosedRing (ps : List Point) : List Point :=
  if ps.head? = ps.getLast? then ps.dropLast else ps

/-- The loop built from a raw ring before any orientation fixup. -/
def mkRawLoop (ps : List Point) : Loop := LoopFromPoints (stripClosedRing ps)

/-- The point a well-dimensioned GeoJSON coordinate pair parses to. -/
def parsePair (pr : List ℚ) : Point := ⟨⟨pr.getD 1 0, pr.getD 0 0⟩⟩

/-- The raw loop a well-formed GeoJSON ring parses to. -/
def parseRing (ring : List (List ℚ)) : Loop := mkRawLoop (ring.map parsePair)

/-- A well-formed GeoJSON ring for the equivalence lemmas: non-empty with
two-dimensional coordinate pairs. -/
abbrev wfRingGJ (ring : List (List ℚ)) : Prop :=
  ring ≠ [] ∧ ∀ pr ∈ ring, pr.length = 2

abbrev wfGroupGJ (g : List (List (List ℚ))) : Prop := ∀ ring ∈ g, wfRingGJ ring

abbrev wfMPCoordsGJ (coords : List (List (List (List ℚ)))) : Prop :=
  ∀ g ∈ coords, wfGroupGJ g

/-- Per-group ring assembly: the amended description of GeoJSON MultiPolygon
decode.  Each embedded polygon coordinate list is one grouping unit: its
first ring is normalized as a shell, its later rings are probed against that
group's own first loop at vertex 0. -/
def assembleGroups (m : S2Model) :
    List (List (List (List ℚ))) → Except Abort (List Loop)
  | [] => .ok []
  | g :: gs => do
    let ls ← orientRings m 0 (g.map parseRing)
    let rest ← assembleGroups m gs
    return ls ++ rest

/-- The grouping behavior asserted by claim C1 (and §4.2 of the spec) for
GeoJSON MultiPolygon decode: the whole outer array is ONE accumulating
grouping unit anchored to the very first loop seen - only the very first
ring of the whole value is normalized, and every later ring, across all
embedded lists, is probed against vertex 0 of that first loop. -/
def unmarshalLoopsClaimedGo (m : S2Model) (acc : List Loop) :
    List (List (List ℚ)) → Except Abort (List Loop)
  | [] => .ok acc
  | linearRingCoords :: rest => do
    let points ← unmarshalPointList linearRingCoords
    let p0 ← goIndexZ points 0
    let pj ← goIndexZ points ((points.length : ℤ) - 1)
    let points := if p0 = pj then points.dropLast else points
    let loop := LoopFromPoints points
    let loop ←
      if acc.length = 0 then
        pure (loop.normalize m)
      else do
        let shellLoop ← goIndexZ acc 0
        let v ← shellLoop.vertexGo 0
        pure (if loop.containsPoint m v then loop.invert else loop)
    unmarshalLoopsClaimedGo m (acc ++ [loop]) rest

def unmarshalLoopsClaimedGroups (m : S2Model) (acc : List Loop) :
    List (List (List (List ℚ))) → Except Abort (List Loop)
  | [] => .ok acc
  | g :: gs => do
    let acc ← unmarshalLoopsClaimedGo m acc g
    unmarshalLoopsClaimedGroups m acc gs

/-- MultiPolygon decode as claim C1 describes it. -/
def PolygonFromMultiPolygonCoordinatesClaimed (m : S2Model)
    (coords : List (List (List (List ℚ)))) : Except Abort Polygon := do
  let loops ← unmarshalLoopsClaimedGroups m [] coords
  return PolygonFromLoops m loops

/-! ## Wire-stream constructors used to state decode-side theorems -/

/-- The two float tokens of one on-wire point, order (lng, lat). -/
def pointChunk (p : Point) : List Wire :=
  [.f64 .big p.ll.lng, .f64 .big p.ll.lat]

/-- The payload of one linear ring: vertex count then the points. -/
def ringPayload (ps : List Point) : List Wire :=
  u32chunk .big ps.length ++ (ps.map pointChunk).flatten

/-- The payload of a Polygon value (after its prefix): ring count then the
rings. -/
def ringsPayload (rs : List (List Point)) : List Wire :=
  u32chunk .big rs.length ++ (rs.map ringPayload).flatten

/-- A full big-endian Polygon value: byte-order marker, type code 3,
payload. -/
def polygonStream (rs : List (List Point)) : List Wire :=
  .byte 0 :: u32chunk .big wkbPolygon ++ ringsPayload rs

/-- The vertex sequence wkb.encodeLinearRing emits for a loop: the stored
order for a shell, the reversed order for a hole, re-closed by repeating the
first emitted vertex. -/
def orientedClosed (l : Loop) : List Point :=
  let w := if l.isHole then l.vertices.reverse else l.vertices
  w ++ w.take 1

/-! ## A concrete planar instance of the s2 black box

Used by witnesses and counterexamples.  Points live on the (lng, lat) plane;
a loop is normalized when its shoelace signed area is positive (a
counter-clockwise simple loop encloses a small region, matching
`s2.Loop.IsNormalized` for loops far from covering the sphere), and boundary
containment is even-odd ray casting, complemented for clockwise loops (a
clockwise-listed loop denotes the complement region, as in s2). -/

/-- Exact fraction arithmetic on unreduced (numerator, denominator) pairs.
`Rat` operations normalize through `Nat.gcd`, which the kernel cannot
evaluate; the concrete model below therefore computes with cross
multiplication only, so that witnesses evaluate by `decide`/`rfl`. -/
def fOfQ (q : ℚ) : ℤ × ℤ := (q.num, (q.den : ℤ))

def fAdd (a b : ℤ × ℤ) : ℤ × ℤ := (a.1 * b.2 + b.1 * a.2, a.2 * b.2)

def fSub (a b : ℤ × ℤ) : ℤ × ℤ := (a.1 * b.2 - b.1 * a.2, a.2 * b.2)

def fMul (a b : ℤ × ℤ) : ℤ × ℤ := (a.1 * b.1, a.2 * b.2)

/-- Is the fraction strictly positive? -/
def fPos (a : ℤ × ℤ) : Bool := decide (0 < a.1 * a.2)

/-- Strict fraction comparison a < b. -/
def fLt (a b : ℤ × ℤ) : Bool := fPos (fSub b a)

def fLng (p : Point) : ℤ × ℤ := fOfQ p.ll.lng

def fLat (p : Point) : ℤ × ℤ := fOfQ p.ll.lat

def cross2 (a b : Point) : ℤ × ℤ :=
  fSub (fMul (fLng a) (fLat b)) (fMul (fLng b) (fLat a))

/-- Twice the signed (shoelace) area of the closed cycle through ps, as an
exact fraction. -/
def shoelace (ps : List Point) : ℤ × ℤ :=
  (ps.zip (ps.rotate 1)).foldl (fun s e => fAdd s (cross2 e.1 e.2)) (0, 1)

/-- Does the edge a-b cross the horizontal ray going right from p?  The
x-intersection comparison `px < ax + (py-ay)(bx-ax)/(by-ay)` is carried out
by cross multiplication with the sign of `by-ay`. -/
def rayCrossing (p a b : Point) : Bool :=
  let d := fSub (fLat b) (fLat a)
  let lhs := fMul (fSub (fLng p) (fLng a)) d
  let rhs := fMul (fSub (fLat p) (fLat a)) (fSub (fLng b) (fLng a))
  (fLt (fLat a) (fLat p) != fLt (fLat b) (fLat p)) &&
    (if fPos d then fLt lhs rhs else fLt rhs lhs)

def oddCrossings (ps : List Point) (p : Point) : Bool :=
  (ps.zip (ps.rotate 1)).foldl
    (fun acc e => if rayCrossing p e.1 e.2 then !acc else acc) false

/-- The concrete planar s2 instance: a loop is normalized when its shoelace
area is positive (counter-clockwise), and boundary containment is even-odd
ray casting, complemented for clockwise loops (a clockwise-listed loop
denotes the complement region, as in s2).  The nesting-depth oracle returns
depth 0 everywhere: no claim observes the depths assigned to a freshly
decoded polygon (they all compare vertex sequences), so any total assignment
serves. -/
def M0 : S2Model where
  isNormalizedPts := fun vs => fPos (shoelace vs)
  containsPts := fun vs p => oddCrossings vs p != fPos (fSub (0, 1) (shoelace vs))
  depthsOf := fun pss => pss.map fun _ => 0

/-! ## Concrete inputs for counterexamples and witnesses -/

/-- A closed CCW unit square ring (lng, lat pairs), around the origin corner. -/
def ringSq1 : List (List ℚ) :=
  [[0, 0], [1, 0], [1, 1], [0, 1], [0, 0]]

/-- A closed CCW square ring spanning [-5, 5]^2; it strictly contains the
first vertex (0,0) of `ringSq1`. -/
def ringSqBig : List (List ℚ) :=
  [[-5, -5], [5, -5], [5, 5], [-5, 5], [-5, -5]]

/-- The MultiPolygon input separating the code from claim C1: two embedded
single-ring polygon lists. -/
def inC1 : List (List (List (List ℚ))) := [[ringSq1], [ringSqBig]]

def ptQ (lng lat : ℚ) : Point := ⟨⟨lat, lng⟩⟩

/-- Open CCW square spanning [0, 4]^2. -/
def sqShellPts : List Point := [ptQ 0 0, ptQ 4 0, ptQ 4 4, ptQ 0 4]

/-- Open CW inner square spanning [1, 3]^2 (a hole of the shell, in on-wire
winding). -/
def sqHoleWirePts : List Point :=
  [ptQ 1 1, ptQ 1 3, ptQ 3 3, ptQ 3 1]

/-- A sink that fails once its write-call budget is exhausted, with sink
error code 7. -/
def budgetSink : Sink ℕ :=
  ⟨fun n _ => if n = 0 then .error (.err (.sinkFailure 7)) else .ok (n - 1)⟩

/-- A two-vertex loop used to demonstrate the swallowed sink error. -/
def loopC5 : Loop := ⟨[ptQ 0 0, ptQ 1 0], 0⟩

/-! ## Entities for the round-trip statement (C3) -/

/-- The destination slot of the same shape as an encoded geometry. -/
def destOf : Geom → Dest
  | .latLng v => .latLng v
  | .point v => .point v
  | .polyline v => .polyline v
  | .points v => .points v
  | .polylines v => .polylines v
  | .polygon v => .polygon v

def shapeTag : Dest → ℕ
  | .latLng _ => 0
  | .point _ => 1
  | .polyline _ => 2
  | .polygon _ => 3
  | .points _ => 4
  | .polylines _ => 5
  | .unsupported _ => 6

/-- Equality of a decoded destination with the original geometry "up to
floating-point representation and ring-closure convention": exact for the
point/polyline shapes, same loops with the same orientation (identical vertex
sequences) for a polygon. -/
def geomMatches : Geom → Dest → Prop
  | .latLng v, .latLng w => w = v
  | .point v, .point w => w = v
  | .polyline v, .polyline w => w = v
  | .points v, .points w => w = v
  | .polylines v, .polylines w => w = v
  | .polygon v, .polygon w => w.loops.map Loop.vertices = v.loops.map Loop.vertices
  | _, _ => False

def u32lim : ℕ := 4294967296

/-- Well-formedness of one shell-then-holes run for the round trip, relative
to the geometric model: the shell is stored normalized with at least two
vertices, the holes are stored at odd depth, and (the geometric nesting fact)
each hole's on-wire (reversed) form contains the shell's vertex 1. -/
abbrev wfRun (m : S2Model) : List Loop → Prop
  | [] => False
  | s :: hs =>
    s.isHole = false ∧ 2 ≤ s.vertices.length ∧
    s.vertices.length + 1 < u32lim ∧
    m.isNormalizedPts s.vertices = true ∧
    ∀ h ∈ hs, h.isHole = true ∧ h.vertices ≠ [] ∧
      h.vertices.length + 1 < u32lim ∧
      m.containsPts h.vertices.reverse (s.vertices.getD 1 (ptQ 0 0)) = true

/-- Well-formedness of a geometry value for the WKB round trip: the sizes fit
in the uint32 wire counts, and a polygon satisfies the data-model invariant
(loops partition into shell-then-holes runs) together with the geometric
nesting facts for its holes. -/
abbrev wfGeom (m : S2Model) : Geom → Prop
  | .latLng _ => True
  | .point _ => True
  | .polyline v => v.length < u32lim
  | .points v => v.length < u32lim
  | .polylines v => v.length < u32lim ∧ ∀ pl ∈ v, pl.length < u32lim
  | .polygon v =>
    v.loops.length < u32lim ∧ (runsPartition v.loops).length < u32lim ∧
    ∀ run ∈ runsPartition v.loops, wfRun m run

/-- A concrete polygon: CCW square shell with one hole at depth 1 (stored
CCW, written CW on the wire by OrientedVertex). -/
def polyC3 : Polygon :=
  ⟨[⟨sqShellPts, 0⟩, ⟨sqHoleWirePts.reverse, 1⟩]⟩

/-- A second CCW square shell, disjoint from `sqShellPts`. -/
def sqShell2Pts : List Point := [ptQ 10 0, ptQ 14 0, ptQ 14 4, ptQ 10 4]

/-- A full big-endian WKB Point value. -/
def wkbPointStream (p : Point) : List Wire :=
  .byte 0 :: (u32chunk .big wkbPoint ++ pointChunk p)

/-- A full big-endian WKB LineString value. -/
def wkbLineStringStream (ps : List Point) : List Wire :=
  .byte 0 :: (u32chunk .big wkbLineString ++
    (u32chunk .big ps.length ++ (ps.map pointChunk).flatten))

/-- A full big-endian WKB MultiPoint value. -/
def wkbMultiPointStream (ps : List Point) : List Wire :=
  .byte 0 :: (u32chunk .big wkbMultiPoint ++
    (u32chunk .big ps.length ++ (ps.map wkbPointStream).flatten))

/-- A full big-endian WKB MultiLineString value. -/
def wkbMultiLineStringStream (pls : List (List Point)) : List Wire :=
  .byte 0 :: (u32chunk .big wkbMultiLineString ++
    (u32chunk .big pls.length ++ (pls.map wkbLineStringStream).flatten))

/-- A full big-endian WKB MultiPolygon value: each embedded element is a full
Polygon value. -/
def wkbMultiPolygonStream (runs : List (List (List Point))) : List Wire :=
  .byte 0 :: (u32chunk .big wkbMultiPolygon ++
    (u32chunk .big runs.length ++ (runs.map polygonStream).flatten))

/-- A Feature JSON object whose geometry key is present and null. -/
def c7fs : List (String × JSONVal) :=
  [("type", .str "Feature"), ("geometry", .null)]

/-- A zero-valued Feature receiver (nil id, nil properties, no geometry). -/
def c7feat : Feature := ⟨.null, none, none, 0⟩

/-! ## Helper lemmas -/

theorem goIndexZ_get {α : Type} (xs : List α) (i : ℕ) (h : i < xs.length) :
    goIndexZ xs (i : ℤ) = .ok (xs.get ⟨i, h⟩) := by
  unfold goIndexZ
  rw [dif_pos ⟨by omega, by exact_mod_cast h⟩]
  simp

theorem goIndexZ_zero {α : Type} (x : α) (xs : List α) :
    goIndexZ (x :: xs) 0 = .ok x := by
  have := goIndexZ_get (x :: xs) 0 (by simp)
  simpa using this

theorem goIndexZ_zeroGet {α : Type} (xs : List α) (h : 0 < xs.length) :
    goIndexZ xs 0 = .ok (xs.get ⟨0, h⟩) := by
  simpa using goIndexZ_get xs 0 h

theorem goIndexZ_one {α : Type} (xs : List α) (h : 1 < xs.length) :
    goIndexZ xs 1 = .ok (xs.get ⟨1, h⟩) := by
  simpa using goIndexZ_get xs 1 h

theorem goIndexZ_nil {α : Type} (i : ℤ) :
    goIndexZ ([] : List α) i = .error (.panic (.indexOutOfRange i 0)) := by
  unfold goIndexZ
  rw [dif_neg]
  · rfl
  · simp only [List.length_nil, Nat.cast_zero]
    omega

theorem orientedVertexGo_isOk (l : Loop) (i : ℕ) (h : i < l.vertices.length) :
    ∃ p, l.orientedVertexGo i = .ok p := by
  unfold Loop.orientedVertexGo
  have h1 : ((i : ℤ) - (l.vertices.length : ℤ) < 0) := by omega
  simp only [if_pos h1]
  by_cases hh : l.isHole
  · simp only [if_pos hh]
    have hb : (0 : ℤ) ≤ (l.vertices.length : ℤ) - 1 - i ∧
        (l.vertices.length : ℤ) - 1 - i < (l.vertices.length : ℤ) := by omega
    unfold goIndexZ
    rw [dif_pos hb]
    exact ⟨_, rfl⟩
  · simp only [if_neg hh]
    have hb : (0 : ℤ) ≤ (i : ℤ) ∧ (i : ℤ) < (l.vertices.length : ℤ) := by omega
    unfold goIndexZ
    rw [dif_pos hb]
    exact ⟨_, rfl⟩

theorem loopCoordinatesGo_isOk (l : Loop) (f : ℚ → ℚ) :
    ∀ k, k ≤ l.vertices.length → ∃ v, loopCoordinatesGo l f k = .ok v := by
  intro k
  induction k with
  | zero => exact fun _ => ⟨[], rfl⟩
  | succ k ih =>
    intro hk
    obtain ⟨v, hv⟩ := ih (by omega)
    obtain ⟨p, hp⟩ := orientedVertexGo_isOk l k (by omega)
    exact ⟨_, by unfold loopCoordinatesGo; rw [hv, hp]; rfl⟩

theorem loopCoordinates_isOk (l : Loop) (f : ℚ → ℚ) :
    ∃ v, loopCoordinates l f = .ok v := by
  unfold loopCoordinates
  by_cases h : l.numVertices = 0
  · exact ⟨[], by rw [if_pos h]; rfl⟩
  · obtain ⟨v, hv⟩ := loopCoordinatesGo_isOk l f l.numVertices (le_refl _)
    rw [if_neg h]
    exact ⟨_, by rw [hv]; rfl⟩

theorem loopListCoordinates_isOk (run : List Loop) (f : ℚ → ℚ) :
    ∃ v, loopListCoordinates run f = .ok v := by
  induction run with
  | nil => exact ⟨[], rfl⟩
  | cons l ls ih =>
    obtain ⟨v, hv⟩ := ih
    obtain ⟨c, hc⟩ := loopCoordinates_isOk l f
    exact ⟨_, by unfold loopListCoordinates; rw [hc, hv]; rfl⟩

theorem runListCoordinates_isOk (runs : List (List Loop)) (f : ℚ → ℚ) :
    ∃ v, runListCoordinates runs f = .ok v := by
  induction runs with
  | nil => exact ⟨[], rfl⟩
  | cons r rs ih =>
    obtain ⟨v, hv⟩ := ih
    obtain ⟨c, hc⟩ := loopListCoordinates_isOk r f
    exact ⟨_, by unfold runListCoordinates; rw [hc, hv]; rfl⟩

theorem selectPrecisionFunc_valid (precision : ℤ)
    (h : precision = PrecisionMax ∨ precision = PrecisionE5 ∨
      precision = PrecisionE6 ∨ precision = PrecisionE7) :
    ∃ f, selectPrecisionFunc precision = .ok f := by
  unfold selectPrecisionFunc
  rcases h with h | h | h | h <;> subst h <;> simp [PrecisionMax, PrecisionE5, PrecisionE6, PrecisionE7]

theorem selectPrecisionFunc_invalid (precision : ℤ)
    (h : ¬(precision = PrecisionMax ∨ precision = PrecisionE5 ∨
      precision = PrecisionE6 ∨ precision = PrecisionE7)) :
    selectPrecisionFunc precision = .error (.err (.invalidPrecision precision)) := by
  push_neg at h
  obtain ⟨h0, h1, h2, h3⟩ := h
  unfold selectPrecisionFunc
  rw [if_neg h0, if_neg h1, if_neg h2, if_neg h3]

/-! ## Claim theorems: C9, C6, C5 -/

/-- C9: the precision codec (PointCoordinates, LoopCoordinates,
PolygonCoordinates) fails exactly on a tier outside {Max, E5, E6, E7}, with
an error naming the invalid tier value; on a valid tier all three succeed on
every input (the conversion is total, with no other failure mode). -/
theorem c9_precision_tiers (precision : ℤ) (pt : Point) (lp : Loop)
    (pg : Polygon) :
    (precision = PrecisionMax ∨ precision = PrecisionE5 ∨
        precision = PrecisionE6 ∨ precision = PrecisionE7 →
      (∃ v, PointCoordinates pt precision = .ok v) ∧
      (∃ v, LoopCoordinates lp precision = .ok v) ∧
      (∃ v, PolygonCoordinates pg precision = .ok v)) ∧
    (¬(precision = PrecisionMax ∨ precision = PrecisionE5 ∨
        precision = PrecisionE6 ∨ precision = PrecisionE7) →
      PointCoordinates pt precision = .error (.err (.invalidPrecision precision)) ∧
      LoopCoordinates lp precision = .error (.err (.invalidPrecision precision)) ∧
      PolygonCoordinates pg precision = .error (.err (.invalidPrecision precision))) := by
  constructor
  · intro h
    obtain ⟨f, hf⟩ := selectPrecisionFunc_valid precision h
    refine ⟨⟨pointCoordinates pt f, ?_⟩, ?_, ?_⟩
    · unfold PointCoordinates
      rw [hf]
      rfl
    · obtain ⟨v, hv⟩ := loopCoordinates_isOk lp f
      exact ⟨v, by unfold LoopCoordinates; rw [hf]; exact hv⟩
    · obtain ⟨v, hv⟩ := runListCoordinates_isOk (runsPartition pg.loops) f
      exact ⟨v, by unfold PolygonCoordinates; rw [hf]; exact hv⟩
  · intro h
    have he := selectPrecisionFunc_invalid precision h
    refine ⟨?_, ?_, ?_⟩
    · unfold PointCoordinates
      rw [he]
      rfl
    · unfold LoopCoordinates
      rw [he]
      rfl
    · unfold PolygonCoordinates
      rw [he]
      rfl

theorem c9_witness :
    ((2 : ℤ) = PrecisionMax ∨ (2 : ℤ) = PrecisionE5 ∨ (2 : ℤ) = PrecisionE6 ∨
      (2 : ℤ) = PrecisionE7) ∧
    (∃ v, PointCoordinates (ptQ 0 0) 2 = .ok v) ∧
    ¬((9 : ℤ) = PrecisionMax ∨ (9 : ℤ) = PrecisionE5 ∨ (9 : ℤ) = PrecisionE6 ∨
      (9 : ℤ) = PrecisionE7) ∧
    PointCoordinates (ptQ 0 0) 9 = .error (.err (.invalidPrecision 9)) := by
  have hvalid : (2 : ℤ) = PrecisionMax ∨ (2 : ℤ) = PrecisionE5 ∨
      (2 : ℤ) = PrecisionE6 ∨ (2 : ℤ) = PrecisionE7 := by decide
  have hinvalid : ¬((9 : ℤ) = PrecisionMax ∨ (9 : ℤ) = PrecisionE5 ∨
      (9 : ℤ) = PrecisionE6 ∨ (9 : ℤ) = PrecisionE7) := by decide
  refine ⟨hvalid, ?_, hinvalid, ?_⟩
  · exact ((c9_precision_tiers 2 (ptQ 0 0) ⟨[], 0⟩ ⟨[]⟩).1 hvalid).1
  · exact ((c9_precision_tiers 9 (ptQ 0 0) ⟨[], 0⟩ ⟨[]⟩).2 hinvalid).1

/-- C6: for every byte stream and every destination value outside the six
supported destination shapes, wkb.Unmarshal returns nil (no error) and leaves
the destination unmodified. -/
theorem c6_unsupported_noop (m : S2Model) (data : List Wire) (x : ℕ) :
    Unmarshal m data (.unsupported x) = .ok (.unsupported x) := rfl

/-- C5: contrary to the claim (which matches the spec's error-propagation
design), a sink error raised while encoding a polygon's rings is NOT
propagated: the ring loop of wkb.encodeWKBPolygon executes `return nil` on a
ring error, so the encode reports success.  With a sink whose write budget is
exhausted after the three header writes, the ring encoding fails with the
sink error, yet encodeWKBPolygon returns ok. -/
theorem c5_sink_error_dropped :
    encodeLinearRing budgetSink 0 loopC5 = .error (.err (.sinkFailure 7)) ∧
    encodeWKBPolygon budgetSink 3 [loopC5] = .ok 0 := ⟨rfl, rfl⟩

/-! ## Ring assembly, GeoJSON path: equivalence with `orientRings 0` -/

theorem exbind_ok {ε α β : Type} (x : α) (f : α → Except ε β) :
    (Except.ok x >>= f) = f x := rfl

theorem exbind_err {ε α β : Type} (e : ε) (f : α → Except ε β) :
    (Except.error e >>= f : Except ε β) = Except.error e := rfl

theorem expure_bind {ε α β : Type} (x : α) (f : α → Except ε β) :
    (pure x >>= f : Except ε β) = f x := rfl

theorem unmarshalPoint_pair (pr : List ℚ) (h : pr.length = 2) :
    unmarshalPoint pr = .ok (parsePair pr) := by
  match pr, h with
  | [a, b], _ => rfl

theorem unmarshalPointList_spec (ring : List (List ℚ))
    (h : ∀ pr ∈ ring, pr.length = 2) :
    unmarshalPointList ring = .ok (ring.map parsePair) := by
  induction ring with
  | nil => rfl
  | cons pr rest ih =>
    unfold unmarshalPointList
    rw [unmarshalPoint_pair pr (h pr (by simp)),
      ih (fun q hq => h q (by simp [hq]))]
    rfl

theorem stripStep (ps : List Point) (h : ps ≠ []) :
    ∃ p0 pl, goIndexZ ps 0 = .ok p0 ∧
      goIndexZ ps ((ps.length : ℤ) - 1) = .ok pl ∧
      (if p0 = pl then ps.dropLast else ps) = stripClosedRing ps := by
  have hlen : 0 < ps.length := List.length_pos.mpr h
  have h0 : goIndexZ ps 0 = .ok (ps.get ⟨0, hlen⟩) := by
    have := goIndexZ_get ps 0 hlen
    simpa using this
  have hl : goIndexZ ps ((ps.length : ℤ) - 1) =
      .ok (ps.get ⟨ps.length - 1, by omega⟩) := by
    have := goIndexZ_get ps (ps.length - 1) (by omega)
    rw [← this]
    congr 1
    omega
  refine ⟨_, _, h0, hl, ?_⟩
  unfold stripClosedRing
  have hhead : ps.head? = some (ps.get ⟨0, hlen⟩) := by
    cases ps with
    | nil => simp at h
    | cons a l => rfl
  have hlast : ps.getLast? = some (ps.get ⟨ps.length - 1, by omega⟩) := by
    rw [List.getLast?_eq_getLast ps h, List.getLast_eq_getElem]
    rfl
  rw [hhead, hlast]
  by_cases he : ps.get ⟨0, hlen⟩ = ps.get ⟨ps.length - 1, by omega⟩
  · rw [if_pos he, if_pos (by rw [he])]
  · rw [if_neg he, if_neg (by simpa using he)]

theorem parseRing_eq (ring : List (List ℚ)) (stripped : List Point)
    (h : stripped = stripClosedRing (ring.map parsePair)) :
    LoopFromPoints stripped = parseRing ring := by
  rw [h]
  rfl

theorem unmarshalLoopsGo_tail (m : S2Model) (shell : ℕ)
    (g : List (List (List ℚ))) :
    ∀ acc (h : shell < acc.length), wfGroupGJ g →
      unmarshalLoopsGo m shell acc g =
        (orientHoles m 0 (acc.get ⟨shell, h⟩) (g.map parseRing)).map
          (fun hs => acc ++ hs) := by
  induction g with
  | nil =>
    intro acc h _
    simp [unmarshalLoopsGo, orientHoles, Except.map]
  | cons ring rest ih =>
    intro acc h hwf
    have hring := hwf ring (by simp)
    have hrest : wfGroupGJ rest := fun r hr => hwf r (by simp [hr])
    obtain ⟨hne, hdim⟩ := hring
    have hpts : (ring.map parsePair) ≠ [] := by
      simpa using hne
    obtain ⟨p0, pl, h0, hl, hstrip⟩ := stripStep (ring.map parsePair) hpts
    unfold unmarshalLoopsGo
    rw [unmarshalPointList_spec ring hdim]
    have hlenneg : ¬(acc.length ≤ shell) := by omega
    rw [exbind_ok, h0, exbind_ok, hl, exbind_ok]
    rw [if_neg hlenneg]
    rw [goIndexZ_get acc shell h, exbind_ok]
    -- the probed reference vertex may itself panic on an empty shell loop;
    -- both sides perform the identical probe
    cases hv : (acc.get ⟨shell, h⟩).vertexGo 0 with
    | error e =>
      simp only [orientHoles, List.map_cons, hv, exbind_err]
      rfl
    | ok v =>
      simp only [orientHoles, List.map_cons, hv, exbind_ok]
      have hloop : LoopFromPoints (if p0 = pl then
          (ring.map parsePair).dropLast else ring.map parsePair) =
          parseRing ring := parseRing_eq ring _ hstrip
      rw [hloop, expure_bind]
      have hlt : shell < (acc ++ [if Loop.containsPoint m (parseRing ring) v = true
          then (parseRing ring).invert else parseRing ring]).length := by
        simp
        omega
      rw [ih _ hlt hrest]
      have hget : (acc ++ [if Loop.containsPoint m (parseRing ring) v = true
          then (parseRing ring).invert else parseRing ring]).get ⟨shell, hlt⟩ =
          acc.get ⟨shell, h⟩ := by
        rw [List.get_eq_getElem, List.get_eq_getElem, List.getElem_append_left]
      rw [hget]
      cases ho : orientHoles m 0 (acc.get ⟨shell, h⟩) (rest.map parseRing) with
      | error e => simp [ho, Except.map, exbind_err]
      | ok hs => simp [ho, Except.map, exbind_ok, expure_bind]

theorem unmarshalLoops_spec (m : S2Model) (acc : List Loop)
    (g : List (List (List ℚ))) (hwf : wfGroupGJ g) :
    unmarshalLoops m acc g =
      (orientRings m 0 (g.map parseRing)).map (fun ls => acc ++ ls) := by
  unfold unmarshalLoops
  cases g with
  | nil => simp [unmarshalLoopsGo, orientRings, Except.map]
  | cons ring rest =>
    have hring := hwf ring (by simp)
    have hrest : wfGroupGJ rest := fun r hr => hwf r (by simp [hr])
    obtain ⟨hne, hdim⟩ := hring
    have hpts : (ring.map parsePair) ≠ [] := by simpa using hne
    obtain ⟨p0, pl, h0, hl, hstrip⟩ := stripStep (ring.map parsePair) hpts
    unfold unmarshalLoopsGo
    rw [unmarshalPointList_spec ring hdim]
    rw [exbind_ok, h0, exbind_ok, hl, exbind_ok]
    rw [if_pos (le_refl acc.length)]
    have hloop : LoopFromPoints (if p0 = pl then
        (ring.map parsePair).dropLast else ring.map parsePair) =
        parseRing ring := parseRing_eq ring _ hstrip
    rw [hloop, expure_bind]
    have hlt : acc.length < (acc ++ [Loop.normalize m (parseRing ring)]).length := by
      simp
    show unmarshalLoopsGo m acc.length (acc ++ [Loop.normalize m (parseRing ring)])
        rest = _
    rw [unmarshalLoopsGo_tail m acc.length rest _ hlt hrest]
    have hsl : (acc ++ [Loop.normalize m (parseRing ring)]).get
        ⟨acc.length, hlt⟩ = Loop.normalize m (parseRing ring) := by
      rw [List.get_eq_getElem, List.getElem_append_right] <;> simp
    rw [hsl]
    unfold orientRings
    cases ho : orientHoles m 0 (Loop.normalize m (parseRing ring))
        (rest.map parseRing) with
    | error e => simp [ho, Except.map, exbind_err]
    | ok hs => simp [ho, Except.map, exbind_ok, expure_bind]

theorem unmarshalLoopsGroups_spec (m : S2Model)
    (coords : List (List (List (List ℚ)))) :
    ∀ acc, wfMPCoordsGJ coords →
      unmarshalLoopsGroups m acc coords =
        (assembleGroups m coords).map (fun ls => acc ++ ls) := by
  induction coords with
  | nil =>
    intro acc _
    simp [unmarshalLoopsGroups, assembleGroups, Except.map]
  | cons g gs ih =>
    intro acc hwf
    have hg : wfGroupGJ g := hwf g (by simp)
    have hgs : wfMPCoordsGJ gs := fun x hx => hwf x (by simp [hx])
    unfold unmarshalLoopsGroups assembleGroups
    rw [unmarshalLoops_spec m acc g hg]
    cases ho : orientRings m 0 (g.map parseRing) with
    | error e => simp [ho, Except.map, exbind_err]
    | ok ls =>
      simp only [ho, Except.map, exbind_ok]
      show unmarshalLoopsGroups m (acc ++ ls) gs = _
      rw [ih _ hgs]
      cases ha : assembleGroups m gs with
      | error e => simp [ha, Except.map, exbind_err]
      | ok rest => simp [ha, Except.map, exbind_ok, expure_bind]

/-! ## Claim C1 -/

/-- C1 counterexample: on a MultiPolygon with two embedded single-ring
polygon lists, the code normalizes the second list's first ring as a fresh
shell (`shell := len(*loops)` is re-evaluated on every unmarshalLoops call),
while the behavior asserted by the claim - one grouping unit anchored to the
very first loop, probing vertex 0 of that loop - would invert that ring
(here the second ring strictly contains the first loop's vertex 0).  The two
behaviors produce different loops. -/
theorem c1_counterexample :
    (PolygonFromMultiPolygonCoordinates M0 inC1).map
        (fun P => P.loops.map Loop.vertices) =
      .ok [[ptQ 0 0, ptQ 1 0, ptQ 1 1, ptQ 0 1],
        [ptQ (-5) (-5), ptQ 5 (-5), ptQ 5 5, ptQ (-5) 5]] ∧
    (PolygonFromMultiPolygonCoordinatesClaimed M0 inC1).map
        (fun P => P.loops.map Loop.vertices) =
      .ok [[ptQ 0 0, ptQ 1 0, ptQ 1 1, ptQ 0 1],
        [ptQ (-5) 5, ptQ 5 5, ptQ 5 (-5), ptQ (-5) (-5)]] ∧
    PolygonFromMultiPolygonCoordinates M0 inC1 ≠
      PolygonFromMultiPolygonCoordinatesClaimed M0 inC1 := by
  refine ⟨rfl, rfl, fun heq => ?_⟩
  have h1 : (PolygonFromMultiPolygonCoordinates M0 inC1).map
      (fun P => P.loops.map Loop.vertices) =
      (PolygonFromMultiPolygonCoordinatesClaimed M0 inC1).map
      (fun P => P.loops.map Loop.vertices) := by rw [heq]
  rw [show (PolygonFromMultiPolygonCoordinates M0 inC1).map
      (fun P => P.loops.map Loop.vertices) =
      .ok [[ptQ 0 0, ptQ 1 0, ptQ 1 1, ptQ 0 1],
        [ptQ (-5) (-5), ptQ 5 (-5), ptQ 5 5, ptQ (-5) 5]] from rfl,
    show (PolygonFromMultiPolygonCoordinatesClaimed M0 inC1).map
      (fun P => P.loops.map Loop.vertices) =
      .ok [[ptQ 0 0, ptQ 1 0, ptQ 1 1, ptQ 0 1],
        [ptQ (-5) 5, ptQ 5 5, ptQ 5 (-5), ptQ (-5) (-5)]] from rfl] at h1
  have h2 := Except.ok.inj h1
  simp [ptQ] at h2
  exact (by decide : ¬((-5 : ℚ) = 5 ∧ (5 : ℚ) = -5)) h2

/-- C1 (amended): GeoJSON MultiPolygon decode resets the grouping unit once
per embedded polygon coordinate list: within each list the first ring is
normalized as that group's shell, and every later ring of the same list is
containment-probed against vertex 0 of that group's own first loop (not
against the first loop of the whole MultiPolygon). -/
theorem c1_amended (m : S2Model) (coords : List (List (List (List ℚ))))
    (hwf : wfMPCoordsGJ coords) :
    PolygonFromMultiPolygonCoordinates m coords =
      (assembleGroups m coords).map (PolygonFromLoops m) := by
  unfold PolygonFromMultiPolygonCoordinates
  rw [unmarshalLoopsGroups_spec m coords [] hwf]
  cases ha : assembleGroups m coords with
  | error e => simp [Except.map, exbind_err]
  | ok ls => simp [Except.map, exbind_ok, expure_bind]

theorem c1_witness :
    wfMPCoordsGJ inC1 ∧
    PolygonFromMultiPolygonCoordinates M0 inC1 =
      (assembleGroups M0 inC1).map (PolygonFromLoops M0) := by
  have hwf : wfMPCoordsGJ inC1 := by decide
  exact ⟨hwf, c1_amended M0 inC1 hwf⟩

/-! ## WKB decode on constructed streams -/

abbrev wfRingsW (rs : List (List Point)) : Prop :=
  ∀ ps ∈ rs, ps ≠ [] ∧ ps.length < 4294967296

theorem readBytesW_exact (bs : List ℕ) (rest : List Wire) :
    readBytesW bs.length (bs.map .byte ++ rest) = .ok (bs, rest) := by
  induction bs with
  | nil => rfl
  | cons b bs ih =>
    simp only [List.map_cons, List.cons_append, List.length_cons, readBytesW,
      readByteW, exbind_ok, ih]
    rfl

theorem u32assemble (m : ℕ) (h : m < 4294967296) :
    u32ofBytesBE (bytesOfU32BE m) = m := by
  unfold u32ofBytesBE bytesOfU32BE
  simp only [List.foldl]
  omega

theorem readU32_u32chunk (n : ℕ) (rest : List Wire) :
    readU32 .big (u32chunk .big n ++ rest) = .ok (n % 4294967296, rest) := by
  unfold readU32 u32chunk
  have hlen : (bytesOfU32 .big (n % 4294967296)).length = 4 := rfl
  rw [← hlen, readBytesW_exact, exbind_ok]
  show Except.ok (u32ofBytes ByteOrder.big (bytesOfU32BE (n % 4294967296)), rest) = _
  rw [show u32ofBytes ByteOrder.big (bytesOfU32BE (n % 4294967296)) =
    u32ofBytesBE (bytesOfU32BE (n % 4294967296)) from rfl]
  rw [u32assemble _ (Nat.mod_lt _ (by omega))]

theorem readU32_u32chunk_lt (n : ℕ) (h : n < 4294967296) (rest : List Wire) :
    readU32 .big (u32chunk .big n ++ rest) = .ok (n, rest) := by
  rw [readU32_u32chunk, Nat.mod_eq_of_lt h]

theorem decodePoint_chunk (p : Point) (rest : List Wire) :
    decodePoint (pointChunk p ++ rest) .big = .ok (p.ll, rest) := rfl

theorem readPoints_chunks (ps : List Point) (rest : List Wire) :
    readPoints .big ps.length ((ps.map pointChunk).flatten ++ rest) =
      .ok (ps, rest) := by
  induction ps with
  | nil => rfl
  | cons p ps ih =>
    simp only [List.map_cons, List.flatten_cons, List.length_cons,
      List.append_assoc, readPoints, decodePoint_chunk, exbind_ok, ih]
    rfl

theorem decodeLinearRing_payload (ps : List Point) (hne : ps ≠ [])
    (hlt : ps.length < 4294967296) (rest : List Wire) :
    decodeLinearRing (ringPayload ps ++ rest) .big = .ok (mkRawLoop ps, rest) := by
  unfold decodeLinearRing ringPayload
  rw [List.append_assoc]
  simp only [readU32_u32chunk_lt ps.length hlt, exbind_ok, readPoints_chunks]
  obtain ⟨p0, pl, h0, hl, hstrip⟩ := stripStep ps hne
  simp only [h0, hl, exbind_ok, hstrip]
  rfl

theorem decodeRingsGo_tail (m : S2Model) (rs : List (List Point)) :
    ∀ (sl : Loop) (acc : List Loop) (rest : List Wire), wfRingsW rs →
      decodeRingsGo m .big (sl :: acc) rs.length
          ((rs.map ringPayload).flatten ++ rest) =
        (orientHoles m 1 sl (rs.map mkRawLoop)).map
          (fun hs => ((sl :: acc) ++ hs, rest)) := by
  induction rs with
  | nil =>
    intro sl acc rest _
    simp [decodeRingsGo, orientHoles, Except.map]
  | cons r rs ih =>
    intro sl acc rest hwf
    obtain ⟨hne, hlt⟩ := hwf r (by simp)
    have hrest : wfRingsW rs := fun x hx => hwf x (by simp [hx])
    simp only [List.map_cons, List.flatten_cons, List.length_cons,
      List.append_assoc, decodeRingsGo, decodeLinearRing_payload r hne hlt,
      exbind_ok, Nat.succ_ne_zero, if_false, goIndexZ_zero]
    cases hv : sl.vertexGo 1 with
    | error e =>
      simp only [orientHoles, List.map_cons, hv, exbind_err]
      rfl
    | ok v =>
      simp only [orientHoles, List.map_cons, hv, exbind_ok, expure_bind]
      rw [show (sl :: acc ++ [if Loop.containsPoint m (mkRawLoop r) v = true then
          (mkRawLoop r).invert else mkRawLoop r]) =
        sl :: (acc ++ [if Loop.containsPoint m (mkRawLoop r) v = true then
          (mkRawLoop r).invert else mkRawLoop r]) from rfl]
      rw [ih sl _ rest hrest]
      cases ho : orientHoles m 1 sl (rs.map mkRawLoop) with
      | error e => simp [ho, Except.map, exbind_err]
      | ok hs => simp [ho, Except.map, exbind_ok, expure_bind]

theorem decodePolygonLoopsBody_spec (m : S2Model) (rs : List (List Point))
    (rest : List Wire) (hwf : wfRingsW rs) (hlen : rs.length < 4294967296) :
    decodePolygonLoopsBody m (ringsPayload rs ++ rest) .big =
      (orientRings m 1 (rs.map mkRawLoop)).map (fun ls => (ls, rest)) := by
  unfold decodePolygonLoopsBody ringsPayload
  rw [List.append_assoc]
  simp only [readU32_u32chunk_lt rs.length hlen, exbind_ok]
  cases rs with
  | nil => simp [decodeRingsGo, orientRings, Except.map]
  | cons r rs =>
    obtain ⟨hne, hlt⟩ := hwf r (by simp)
    have hrest : wfRingsW rs := fun x hx => hwf x (by simp [hx])
    simp only [List.map_cons, List.flatten_cons, List.length_cons,
      List.append_assoc, decodeRingsGo, decodeLinearRing_payload r hne hlt,
      exbind_ok, List.length_nil, if_pos, expure_bind]
    rw [show (([] : List Loop) ++ [Loop.normalize m (mkRawLoop r)]) =
      Loop.normalize m (mkRawLoop r) :: ([] : List Loop) from rfl]
    rw [decodeRingsGo_tail m rs _ [] rest hrest]
    unfold orientRings
    cases ho : orientHoles m 1 (Loop.normalize m (mkRawLoop r))
        (rs.map mkRawLoop) with
    | error e => simp [ho, Except.map, exbind_err]
    | ok hs => simp [ho, Except.map, exbind_ok, expure_bind]

/-! ## Claim C2 -/

/-- C2: the containment probe's reference vertex differs by call site.  The
WKB polygon decode path equals `orientRings` with probe index 1 (it tests
whether a candidate hole loop contains the shell's vertex 1 and inverts
exactly when it does), while the GeoJSON path equals `orientRings` with probe
index 0; `orientRings` normalizes the first ring of the grouping unit instead
of probing it. -/
theorem c2_probe_vertices (m : S2Model) (rs : List (List Point))
    (g : List (List (List ℚ))) (rest : List Wire)
    (h1 : wfRingsW rs) (h2 : rs.length < 4294967296) (h3 : wfGroupGJ g) :
    decodePolygonLoopsBody m (ringsPayload rs ++ rest) .big =
      (orientRings m 1 (rs.map mkRawLoop)).map (fun ls => (ls, rest)) ∧
    unmarshalLoops m [] g = orientRings m 0 (g.map parseRing) := by
  refine ⟨decodePolygonLoopsBody_spec m rs rest h1 h2, ?_⟩
  rw [unmarshalLoops_spec m [] g h3]
  cases ho : orientRings m 0 (g.map parseRing) with
  | error e => simp [Except.map]
  | ok ls => simp [Except.map]

theorem c2_witness :
    wfRingsW [sqShellPts, sqHoleWirePts] ∧
    ([sqShellPts, sqHoleWirePts] : List (List Point)).length < 4294967296 ∧
    wfGroupGJ [ringSq1, ringSqBig] ∧
    (decodePolygonLoopsBody M0
        (ringsPayload [sqShellPts, sqHoleWirePts] ++ []) .big =
      (orientRings M0 1 ([sqShellPts, sqHoleWirePts].map mkRawLoop)).map
        (fun ls => (ls, [])) ∧
    unmarshalLoops M0 [] [ringSq1, ringSqBig] =
      orientRings M0 0 ([ringSq1, ringSqBig].map parseRing)) := by
  refine ⟨by decide, by decide, by decide, ?_⟩
  exact c2_probe_vertices M0 [sqShellPts, sqHoleWirePts] [ringSq1, ringSqBig]
    [] (by decide) (by decide) (by decide)

/-! ## Claim C10 -/

abbrev notPanic {α : Type} (r : Except Abort α) : Prop :=
  ∀ p, r ≠ .error (.panic p)

theorem unmarshalPoint_cases (c : List ℚ) :
    (∃ p, unmarshalPoint c = .ok p) ∨
      unmarshalPoint c = .error (.err (.dimension c.length)) := by
  match c with
  | [] => exact Or.inr rfl
  | [a] => exact Or.inr rfl
  | [a, b] => exact Or.inl ⟨_, rfl⟩
  | a :: b :: d :: tl => exact Or.inr rfl

theorem unmarshalPointList_cases (ring : List (List ℚ)) :
    (∃ ps, unmarshalPointList ring = .ok ps ∧ ps.length = ring.length) ∨
      ∃ d, unmarshalPointList ring = .error (.err (.dimension d)) := by
  induction ring with
  | nil => exact Or.inl ⟨[], rfl, rfl⟩
  | cons c cs ih =>
    unfold unmarshalPointList
    cases unmarshalPoint_cases c with
    | inl h =>
      obtain ⟨p, hp⟩ := h
      rw [hp, exbind_ok]
      cases ih with
      | inl h2 =>
        obtain ⟨ps, hps, hlen⟩ := h2
        rw [hps, exbind_ok]
        exact Or.inl ⟨p :: ps, rfl, by simp [hlen]⟩
      | inr h2 =>
        obtain ⟨d, hd⟩ := h2
        rw [hd, exbind_err]
        exact Or.inr ⟨d, rfl⟩
    | inr h =>
      rw [h, exbind_err]
      exact Or.inr ⟨c.length, rfl⟩

theorem stripNonempty (ps : List Point) (h : 2 ≤ ps.length) (p0 pl : Point) :
    (if p0 = pl then ps.dropLast else ps) ≠ [] := by
  by_cases he : p0 = pl
  · rw [if_pos he]
    have : ps.dropLast.length = ps.length - 1 := List.length_dropLast ps
    intro hc
    rw [hc] at this
    simp at this
    omega
  · rw [if_neg he]
    intro hc
    rw [hc] at h
    simp at h

theorem unmarshalLoopsGo_noPanic (m : S2Model) (g : List (List (List ℚ))) :
    ∀ (shell : ℕ) (acc : List Loop), (∀ ring ∈ g, 2 ≤ ring.length) →
      (∀ h : shell < acc.length, (acc.get ⟨shell, h⟩).vertices ≠ []) →
      notPanic (unmarshalLoopsGo m shell acc g) := by
  induction g with
  | nil =>
    intro shell acc _ _ p
    simp [unmarshalLoopsGo]
  | cons ring rest ih =>
    intro shell acc hg hacc
    have hring : 2 ≤ ring.length := hg ring (by simp)
    have hrest : ∀ r ∈ rest, 2 ≤ r.length := fun r hr => hg r (by simp [hr])
    unfold unmarshalLoopsGo
    cases unmarshalPointList_cases ring with
    | inr h =>
      obtain ⟨d, hd⟩ := h
      rw [hd, exbind_err]
      intro p
      simp
    | inl h =>
      obtain ⟨ps, hps, hlen⟩ := h
      rw [hps, exbind_ok]
      have hps2 : 2 ≤ ps.length := by omega
      have hpos : 0 < ps.length := by omega
      rw [goIndexZ_zeroGet ps hpos, exbind_ok]
      have hl2 : ps.length - 1 < ps.length := by omega
      have hlast : goIndexZ ps ((ps.length : ℤ) - 1) =
          .ok (ps.get ⟨ps.length - 1, hl2⟩) := by
        have := goIndexZ_get ps (ps.length - 1) hl2
        rw [← this]
        congr 1
        omega
      rw [hlast, exbind_ok]
      set p0 := ps.get ⟨0, hpos⟩
      set pl := ps.get ⟨ps.length - 1, hl2⟩
      have hstrip : (if p0 = pl then ps.dropLast else ps) ≠ [] :=
        stripNonempty ps hps2 p0 pl
      by_cases hsh : acc.length ≤ shell
      · rw [if_pos hsh, expure_bind]
        apply ih shell _ hrest
        intro h
        by_cases heq : shell < acc.length
        · rw [List.get_eq_getElem, List.getElem_append_left heq]
          exact hacc heq
        · have hsh2 : shell = acc.length := by
            simp at h
            omega
          subst hsh2
          rw [List.get_eq_getElem, List.getElem_append_right (le_refl _)]
          simp only [Nat.sub_self]
          unfold Loop.normalize Loop.invert LoopFromPoints
          by_cases hn : m.isNormalizedPts (if p0 = pl then ps.dropLast else ps)
          · simp only [if_pos hn]
            exact hstrip
          · simp only [if_neg hn]
            simpa using hstrip
      · rw [if_neg hsh]
        have hshlt : shell < acc.length := by omega
        rw [goIndexZ_get acc shell hshlt, exbind_ok]
        have hvne := hacc hshlt
        have hv : (acc.get ⟨shell, hshlt⟩).vertexGo 0 =
            .ok ((acc.get ⟨shell, hshlt⟩).vertices.get
              ⟨0, List.length_pos.mpr hvne⟩) := by
          unfold Loop.vertexGo
          exact goIndexZ_get _ 0 (List.length_pos.mpr hvne)
        rw [hv, exbind_ok, expure_bind]
        apply ih shell _ hrest
        intro h
        rw [List.get_eq_getElem, List.getElem_append_left hshlt]
        exact hacc hshlt

theorem unmarshalLoops_noPanic (m : S2Model) (acc : List Loop)
    (g : List (List (List ℚ))) (hg : ∀ ring ∈ g, 2 ≤ ring.length) :
    notPanic (unmarshalLoops m acc g) := by
  unfold unmarshalLoops
  exact unmarshalLoopsGo_noPanic m g acc.length acc hg (fun h => by omega)

theorem unmarshalLoopsGroups_noPanic (m : S2Model)
    (coords : List (List (List (List ℚ))))
    (hg : ∀ g ∈ coords, ∀ ring ∈ g, 2 ≤ ring.length) :
    ∀ acc, notPanic (unmarshalLoopsGroups m acc coords) := by
  induction coords with
  | nil =>
    intro acc p
    simp [unmarshalLoopsGroups]
  | cons g gs ih =>
    intro acc
    unfold unmarshalLoopsGroups
    cases hu : unmarshalLoops m acc g with
    | error e =>
      rw [exbind_err]
      intro p hc
      have := unmarshalLoops_noPanic m acc g (hg g (by simp))
      rw [hu] at this
      cases hc
      exact this p rfl
    | ok ls =>
      rw [exbind_ok]
      exact ih (fun x hx => hg x (by simp [hx])) ls

theorem orientHoles_isOk (m : S2Model) (sl : Loop)
    (h2 : 2 ≤ sl.vertices.length) (hs : List Loop) :
    ∃ ls, orientHoles m 1 sl hs = .ok ls := by
  induction hs with
  | nil => exact ⟨[], rfl⟩
  | cons h rest ih =>
    obtain ⟨ls, hls⟩ := ih
    unfold orientHoles
    have hv : sl.vertexGo 1 = .ok (sl.vertices.get ⟨1, by omega⟩) := by
      unfold Loop.vertexGo
      exact goIndexZ_get _ 1 (by omega)
    rw [hv, exbind_ok, hls, exbind_ok]
    exact ⟨_, rfl⟩

theorem stripClosedRing_length (ps : List Point) :
    ps.length - 1 ≤ (stripClosedRing ps).length := by
  unfold stripClosedRing
  by_cases h : ps.head? = ps.getLast?
  · rw [if_pos h, List.length_dropLast]
  · rw [if_neg h]
    omega

theorem orientRings_isOk (m : S2Model) (rs : List (List Point))
    (hw : ∀ ps ∈ rs, 3 ≤ ps.length) :
    ∃ ls, orientRings m 1 (rs.map mkRawLoop) = .ok ls := by
  cases rs with
  | nil => exact ⟨[], rfl⟩
  | cons r rest =>
    have h3 : 3 ≤ r.length := (hw r (by simp))
    have hsl : 2 ≤ ((mkRawLoop r).normalize m).vertices.length := by
      have hst := stripClosedRing_length r
      unfold Loop.normalize Loop.invert mkRawLoop LoopFromPoints
      by_cases hn : m.isNormalizedPts (stripClosedRing r)
      · simp only [if_pos hn]
        omega
      · simp only [if_neg hn]
        simp only [List.length_reverse]
        omega
    obtain ⟨ls, hls⟩ := orientHoles_isOk m ((mkRawLoop r).normalize m) hsl
      (rest.map mkRawLoop)
    refine ⟨(mkRawLoop r).normalize m :: ls, ?_⟩
    simp only [orientRings, List.map_cons, hls, exbind_ok]
    rfl

theorem decodeWKBPolygonLoops_stream (m : S2Model) (rs : List (List Point))
    (rest : List Wire) :
    decodeWKBPolygonLoops m (polygonStream rs ++ rest) =
      decodePolygonLoopsBody m (ringsPayload rs ++ rest) .big := by
  unfold decodeWKBPolygonLoops polygonStream decodeOrder verifyGeometryType
    decodeGeometryType
  simp only [List.cons_append, List.append_assoc, readByteW, exbind_ok]
  simp only [wkbXDR, if_true, expure_bind]
  simp only [readU32_u32chunk_lt wkbPolygon (by decide), exbind_ok]
  rfl

/-- C10 counterexample: a GeoJSON ring with zero coordinate pairs (resp. a
WKB ring with vertex count 0) drives the duplicate-closing-point check to
index `points[0]` on an empty slice - the decode neither returns a value nor
an error but panics out of bounds. -/
theorem c10_counterexample :
    PolygonFromPolygonCoordinates M0 [[]] =
      .error (.panic (.indexOutOfRange 0 0)) ∧
    decodeLinearRing (u32chunk .big 0) .big =
      .error (.panic (.indexOutOfRange 0 0)) := ⟨rfl, rfl⟩

/-- C10 (amended): polygon ring decoding is total - returns a value or an
error, with the closing-point check in bounds - provided every ring carries
at least 2 coordinate pairs on the GeoJSON paths and at least 3 vertices on
the WKB path (a zero-pair ring makes the closing-point check index out of
bounds, and near-degenerate rings can leave a grouping unit's shell with too
few vertices for the later reference-vertex probes). -/
theorem c10_amended (m : S2Model) (coords3 : List (List (List ℚ)))
    (coords4 : List (List (List (List ℚ)))) (rs : List (List Point))
    (rest : List Wire)
    (h3 : ∀ ring ∈ coords3, 2 ≤ ring.length)
    (h4 : ∀ g ∈ coords4, ∀ ring ∈ g, 2 ≤ ring.length)
    (hw : ∀ ps ∈ rs, 3 ≤ ps.length ∧ ps.length < 4294967296)
    (hwl : rs.length < 4294967296) :
    notPanic (PolygonFromPolygonCoordinates m coords3) ∧
    notPanic (PolygonFromMultiPolygonCoordinates m coords4) ∧
    ∃ v, decodeWKBPolygonLoops m (polygonStream rs ++ rest) = .ok v := by
  refine ⟨?_, ?_, ?_⟩
  · unfold PolygonFromPolygonCoordinates
    cases hu : unmarshalLoops m [] coords3 with
    | error e =>
      rw [exbind_err]
      intro p hc
      cases hc
      exact unmarshalLoops_noPanic m [] coords3 h3 _ hu
    | ok ls =>
      rw [exbind_ok]
      intro p
      simp [pure, Except.pure]
  · unfold PolygonFromMultiPolygonCoordinates
    cases hu : unmarshalLoopsGroups m [] coords4 with
    | error e =>
      rw [exbind_err]
      intro p hc
      cases hc
      exact unmarshalLoopsGroups_noPanic m coords4 h4 [] _ hu
    | ok ls =>
      rw [exbind_ok]
      intro p
      simp [pure, Except.pure]
  · rw [decodeWKBPolygonLoops_stream,
      decodePolygonLoopsBody_spec m rs rest
        (fun ps hps => ⟨by have := (hw ps hps).1; intro hc; rw [hc] at this; simp at this,
          (hw ps hps).2⟩) hwl]
    obtain ⟨ls, hls⟩ := orientRings_isOk m rs (fun ps hps => (hw ps hps).1)
    exact ⟨(ls, rest), by rw [hls]; rfl⟩

theorem c10_witness :
    (∀ ring ∈ [ringSq1], 2 ≤ ring.length) ∧
    (∀ g ∈ [[ringSq1], [ringSqBig]], ∀ ring ∈ g, 2 ≤ ring.length) ∧
    (∀ ps ∈ [sqShellPts], 3 ≤ ps.length ∧ ps.length < 4294967296) ∧
    ([sqShellPts] : List (List Point)).length < 4294967296 ∧
    (notPanic (PolygonFromPolygonCoordinates M0 [ringSq1]) ∧
      notPanic (PolygonFromMultiPolygonCoordinates M0 [[ringSq1], [ringSqBig]]) ∧
      ∃ v, decodeWKBPolygonLoops M0 (polygonStream [sqShellPts] ++ []) = .ok v) := by
  refine ⟨by decide, by decide, by decide, by decide, ?_⟩
  exact c10_amended M0 [ringSq1] [[ringSq1], [ringSqBig]] [sqShellPts] []
    (by decide) (by decide) (by decide) (by decide)

/-! ## WKB encode into the buffer sink -/

theorem encodePoint_buffer (st : List Wire) (p : Point) :
    encodePoint bufferSink st p = .ok (st ++ pointChunk p) := by
  unfold encodePoint encodePointFromLatLng writeF64S bufferSink pointChunk
    LatLngFromPoint
  simp only [exbind_ok, List.append_assoc]
  rfl

theorem orientedClosed_length (l : Loop) (h : l.vertices ≠ []) :
    (orientedClosed l).length = l.vertices.length + 1 := by
  have hn : 0 < l.vertices.length := List.length_pos.mpr h
  unfold orientedClosed
  by_cases hh : l.isHole <;>
    simp [hh, List.length_take] <;> omega

theorem closed_getD_len (w : List Point) (hw : w ≠ []) (j : ℕ)
    (hj : j = w.length) :
    (w ++ w.take 1).getD j (ptQ 0 0) = w.get ⟨0, List.length_pos.mpr hw⟩ := by
  subst hj
  rw [List.getD_append_right _ _ _ _ (le_refl _), Nat.sub_self]
  cases w with
  | nil => exact absurd rfl hw
  | cons a t => rfl

theorem writeByteS_buffer (st : List Wire) (b : ℕ) :
    writeByteS bufferSink st b = .ok (st ++ [.byte (b % 256)]) := rfl

theorem writeU32S_buffer (st : List Wire) (o : ByteOrder) (n : ℕ) :
    writeU32S bufferSink st o n = .ok (st ++ u32chunk o n) := rfl

theorem orientedVertexGo_eq (l : Loop) (h : l.vertices ≠ []) (i : ℕ)
    (hi : i ≤ l.vertices.length) :
    l.orientedVertexGo i = .ok ((orientedClosed l).getD i (ptQ 0 0)) := by
  have hn : 0 < l.vertices.length := List.length_pos.mpr h
  unfold Loop.orientedVertexGo orientedClosed
  by_cases hh : l.isHole
  · simp only [hh, if_true]
    by_cases hilt : i < l.vertices.length
    · rw [if_pos (show (i : ℤ) - (l.vertices.length : ℤ) < 0 by omega)]
      have hcast : ((l.vertices.length : ℤ) - 1 - i) =
          ((l.vertices.length - 1 - i : ℕ) : ℤ) := by omega
      rw [hcast, goIndexZ_get l.vertices (l.vertices.length - 1 - i) (by omega)]
      congr 1
      rw [List.getD_append _ _ _ _ (by simp; omega),
        List.getD_eq_getElem _ _ (by simp; omega)]
      simp only [List.getElem_reverse, List.get_eq_getElem]
    · have hieq : i = l.vertices.length := by omega
      subst hieq
      rw [if_neg (show ¬(((l.vertices.length : ℕ) : ℤ) -
        (l.vertices.length : ℤ) < 0) by omega)]
      have hcast : ((l.vertices.length : ℤ) - 1 -
          (((l.vertices.length : ℕ) : ℤ) - (l.vertices.length : ℤ))) =
          ((l.vertices.length - 1 : ℕ) : ℤ) := by omega
      rw [hcast, goIndexZ_get l.vertices (l.vertices.length - 1) (by omega)]
      congr 1
      have hrevne : l.vertices.reverse ≠ [] := by simpa using h
      rw [closed_getD_len l.vertices.reverse hrevne l.vertices.length (by simp)]
      rw [List.get_eq_getElem, List.get_eq_getElem, List.getElem_reverse]
      simp
  · simp only [hh, Bool.false_eq_true, if_false]
    by_cases hilt : i < l.vertices.length
    · rw [if_pos (show (i : ℤ) - (l.vertices.length : ℤ) < 0 by omega),
        goIndexZ_get l.vertices i hilt]
      congr 1
      rw [List.getD_append _ _ _ _ hilt, List.getD_eq_getElem _ _ hilt]
      simp only [List.get_eq_getElem]
    · have hieq : i = l.vertices.length := by omega
      subst hieq
      rw [if_neg (show ¬(((l.vertices.length : ℕ) : ℤ) -
        (l.vertices.length : ℤ) < 0) by omega)]
      have hcast : (((l.vertices.length : ℕ) : ℤ) - (l.vertices.length : ℤ)) =
          ((0 : ℕ) : ℤ) := by omega
      rw [hcast, goIndexZ_get l.vertices 0 hn]
      congr 1
      rw [closed_getD_len l.vertices h l.vertices.length rfl]

theorem encodeOrientedFrom_buffer (l : Loop) (h : l.vertices ≠ []) :
    ∀ (k i : ℕ) (st : List Wire), i + k = l.numVertices + 1 →
      encodeOrientedFrom bufferSink l i k st =
        .ok (st ++ (((orientedClosed l).drop i).map pointChunk).flatten) := by
  intro k
  induction k with
  | zero =>
    intro i st hik
    have : (orientedClosed l).drop i = [] := by
      apply List.drop_eq_nil_of_le
      rw [orientedClosed_length l h]
      unfold Loop.numVertices at hik
      omega
    simp [encodeOrientedFrom, this]
  | succ k ih =>
    intro i st hik
    have hi : i ≤ l.vertices.length := by
      unfold Loop.numVertices at hik
      omega
    unfold encodeOrientedFrom
    rw [orientedVertexGo_eq l h i hi, exbind_ok, encodePoint_buffer, exbind_ok,
      ih (i + 1) _ (by omega)]
    have hdrop : (orientedClosed l).drop i =
        (orientedClosed l).getD i (ptQ 0 0) :: (orientedClosed l).drop (i + 1) := by
      rw [List.getD_eq_getElem _ _ (by rw [orientedClosed_length l h]; unfold Loop.numVertices at hik; omega)]
      exact List.drop_eq_getElem_cons _
    rw [hdrop]
    simp [List.append_assoc]

theorem encodeLinearRing_buffer (l : Loop) (h : l.vertices ≠ [])
    (st : List Wire) :
    encodeLinearRing bufferSink st l =
      .ok (st ++ ringPayload (orientedClosed l)) := by
  unfold encodeLinearRing ringPayload
  simp only [writeU32S_buffer, exbind_ok]
  rw [encodeOrientedFrom_buffer l h (l.numVertices + 1) 0 _ (by omega)]
  rw [orientedClosed_length l h]
  simp [List.append_assoc, Loop.numVertices]

theorem encodeRingsGo_buffer (loops : List Loop)
    (h : ∀ l ∈ loops, l.vertices ≠ []) :
    ∀ st, encodeRingsGo bufferSink loops st =
      .ok (st ++ (loops.map fun l => ringPayload (orientedClosed l)).flatten) := by
  induction loops with
  | nil => intro st; simp [encodeRingsGo]
  | cons l ls ih =>
    intro st
    unfold encodeRingsGo
    rw [encodeLinearRing_buffer l (h l (by simp)) st]
    show encodeRingsGo bufferSink ls (st ++ ringPayload (orientedClosed l)) = _
    rw [ih (fun x hx => h x (by simp [hx]))]
    simp [List.append_assoc]

theorem encodeWKBPolygon_buffer (loops : List Loop)
    (h : ∀ l ∈ loops, l.vertices ≠ []) (st : List Wire) :
    encodeWKBPolygon bufferSink st loops =
      .ok (st ++ polygonStream (loops.map orientedClosed)) := by
  unfold encodeWKBPolygon
  rw [writeByteS_buffer, exbind_ok, writeU32S_buffer, exbind_ok,
    writeU32S_buffer, exbind_ok]
  rw [encodeRingsGo_buffer loops h]
  simp [polygonStream, ringsPayload, List.append_assoc, List.map_map,
    Function.comp_def, wkbXDR]

/-! ## Claim C4 -/

theorem filter_shell_single (s : Loop) (hs : List Loop)
    (hS : s.isHole = false) (hH : ∀ h ∈ hs, h.isHole = true) :
    ((s :: hs).filter fun l => !l.isHole) = [s] := by
  rw [List.filter_cons_of_pos (by simp [hS])]
  rw [List.filter_eq_nil_iff.mpr (fun h hh => by simp [hH h hh])]

theorem runsPartition_nil : runsPartition [] = [] := by
  unfold runsPartition
  rfl

theorem runsPartition_single (s : Loop) (hs : List Loop)
    (hH : ∀ h ∈ hs, h.isHole = true) :
    runsPartition (s :: hs) = [s :: hs] := by
  unfold runsPartition
  rw [List.takeWhile_eq_self_iff.mpr hH, List.dropWhile_eq_nil_iff.mpr
    (fun x hx => hH x hx), runsPartition_nil]

theorem runsPartition_pair (s1 s2 : Loop) (h2 : s2.isHole = false) :
    runsPartition [s1, s2] = [[s1], [s2]] := by
  unfold runsPartition
  rw [show List.takeWhile Loop.isHole [s2] = [] from by simp [List.takeWhile, h2]]
  rw [show List.dropWhile Loop.isHole [s2] = [s2] from by simp [List.dropWhile, h2]]
  unfold runsPartition
  rw [show List.takeWhile Loop.isHole ([] : List Loop) = [] from rfl,
    show List.dropWhile Loop.isHole ([] : List Loop) = [] from rfl,
    runsPartition_nil]

theorem runListCoordinates_single (run : List Loop) (f : ℚ → ℚ) :
    ∃ c, runListCoordinates [run] f = .ok [c] := by
  obtain ⟨c, hc⟩ := loopListCoordinates_isOk run f
  exact ⟨c, by unfold runListCoordinates runListCoordinates; rw [hc]; rfl⟩

theorem runListCoordinates_pair (r1 r2 : List Loop) (f : ℚ → ℚ) :
    ∃ c1 c2, runListCoordinates [r1, r2] f = .ok [c1, c2] := by
  obtain ⟨c1, hc1⟩ := loopListCoordinates_isOk r1 f
  obtain ⟨c2, hc2⟩ := loopListCoordinates_isOk r2 f
  refine ⟨c1, c2, ?_⟩
  unfold runListCoordinates runListCoordinates runListCoordinates
  rw [hc1, hc2]
  rfl

theorem loopListCoordinates_single (l : Loop) (f : ℚ → ℚ) :
    ∃ c, loopListCoordinates [l] f = .ok [c] := by
  obtain ⟨c, hc⟩ := loopCoordinates_isOk l f
  exact ⟨c, by unfold loopListCoordinates loopListCoordinates; rw [hc]; rfl⟩

/-- C4: a Polygon with exactly one shell (then any number of holes) encodes
with the single-polygon tag in both formats - WKB type code 3
(`polygonStream` carries `wkbPolygon = 3`) and GeoJSON type `"Polygon"` -
while a Polygon of two shells and no holes encodes as the multi-polygon form:
WKB type code 6 with exactly two embedded single-ring Polygon values, and
GeoJSON type `"MultiPolygon"` with exactly two embedded single-ring
coordinate groups. -/
theorem c4_polygon_tags (s : Loop) (hs : List Loop) (s1 s2 : Loop)
    (hS : s.isHole = false) (hH : ∀ h ∈ hs, h.isHole = true)
    (hv : s.vertices ≠ []) (hvh : ∀ h ∈ hs, h.vertices ≠ [])
    (h1 : s1.isHole = false) (h2 : s2.isHole = false)
    (hv1 : s1.vertices ≠ []) (hv2 : s2.vertices ≠ []) :
    encodeWKBMultiPolygon bufferSink [] ⟨s :: hs⟩ =
      .ok (polygonStream ((s :: hs).map orientedClosed)) ∧
    encodeWKBMultiPolygon bufferSink [] ⟨[s1, s2]⟩ =
      .ok (.byte 0 :: u32chunk .big wkbMultiPolygon ++ u32chunk .big 2 ++
        (polygonStream [orientedClosed s1] ++ polygonStream [orientedClosed s2])) ∧
    (∃ c, marshalPolygon ⟨s :: hs⟩ PrecisionMax =
      .ok (.obj [("type", .str "Polygon"), ("coordinates", f3ToJSON c)])) ∧
    (∃ c1 c2, marshalPolygon ⟨[s1, s2]⟩ PrecisionMax =
      .ok (.obj [("type", .str "MultiPolygon"),
        ("coordinates", f4ToJSON [c1, c2])]) ∧
      c1.length = 1 ∧ c2.length = 1) := by
  refine ⟨?_, ?_, ?_, ?_⟩
  · unfold encodeWKBMultiPolygon
    rw [show (⟨s :: hs⟩ : Polygon).loops = s :: hs from rfl,
      filter_shell_single s hs hS hH]
    rw [if_pos (by simp)]
    have := encodeWKBPolygon_buffer (s :: hs)
      (by intro l hl
          rcases List.mem_cons.mp hl with hl2 | hl2
          · subst hl2; exact hv
          · exact hvh l hl2) []
    rw [this]
    rfl
  · unfold encodeWKBMultiPolygon
    rw [show (⟨[s1, s2]⟩ : Polygon).loops = [s1, s2] from rfl]
    rw [show (([s1, s2].filter fun l => !l.isHole)) = [s1, s2] from by
      simp [List.filter, h1, h2]]
    rw [if_neg (by simp)]
    rw [writeByteS_buffer, exbind_ok, writeU32S_buffer, exbind_ok,
      writeU32S_buffer, exbind_ok]
    rw [runsPartition_pair s1 s2 h2]
    unfold encodeRunListGo
    rw [encodeWKBPolygon_buffer [s1] (by simpa using hv1)]
    show encodeRunListGo bufferSink [[s2]] _ = _
    unfold encodeRunListGo
    rw [encodeWKBPolygon_buffer [s2] (by simpa using hv2)]
    show Except.ok _ = _
    simp [List.append_assoc, wkbXDR]
  · unfold marshalPolygon PolygonCoordinates
    rw [show selectPrecisionFunc PrecisionMax = .ok precisionMax from rfl,
      exbind_ok]
    rw [show (⟨s :: hs⟩ : Polygon).loops = s :: hs from rfl,
      runsPartition_single s hs hH]
    obtain ⟨c, hc⟩ := runListCoordinates_single (s :: hs) precisionMax
    rw [hc, exbind_ok]
    exact ⟨c, rfl⟩
  · unfold marshalPolygon PolygonCoordinates
    rw [show selectPrecisionFunc PrecisionMax = .ok precisionMax from rfl,
      exbind_ok]
    rw [show (⟨[s1, s2]⟩ : Polygon).loops = [s1, s2] from rfl,
      runsPartition_pair s1 s2 h2]
    obtain ⟨lc1, hlc1⟩ := loopListCoordinates_single s1 precisionMax
    obtain ⟨lc2, hlc2⟩ := loopListCoordinates_single s2 precisionMax
    refine ⟨[lc1], [lc2], ?_, rfl, rfl⟩
    unfold runListCoordinates runListCoordinates runListCoordinates
    rw [hlc1, hlc2]
    rfl

theorem c4_witness :
    ((⟨sqShellPts, 0⟩ : Loop).isHole = false ∧
      (∀ h ∈ [(⟨sqHoleWirePts.reverse, 1⟩ : Loop)], h.isHole = true) ∧
      (⟨sqShellPts, 0⟩ : Loop).vertices ≠ [] ∧
      (⟨sqShell2Pts, 0⟩ : Loop).isHole = false) ∧
    encodeWKBMultiPolygon bufferSink []
        ⟨[⟨sqShellPts, 0⟩, ⟨sqHoleWirePts.reverse, 1⟩]⟩ =
      .ok (polygonStream
        ([⟨sqShellPts, 0⟩, ⟨sqHoleWirePts.reverse, 1⟩].map orientedClosed)) ∧
    (∃ c1 c2, marshalPolygon ⟨[⟨sqShellPts, 0⟩, ⟨sqShell2Pts, 0⟩]⟩ PrecisionMax =
      .ok (.obj [("type", .str "MultiPolygon"),
        ("coordinates", f4ToJSON [c1, c2])]) ∧
      c1.length = 1 ∧ c2.length = 1) := by
  have hc4 := c4_polygon_tags ⟨sqShellPts, 0⟩ [⟨sqHoleWirePts.reverse, 1⟩]
    ⟨sqShellPts, 0⟩ ⟨sqShell2Pts, 0⟩ (by decide) (by decide) (by decide)
    (by decide) (by decide) (by decide) (by decide) (by decide)
  exact ⟨⟨by decide, by decide, by decide, by decide⟩, hc4.1, hc4.2.2.2⟩

/-! ## WKB round trip: per-shape lemmas -/

theorem decodeOrder_zero (s : List Wire) :
    decodeOrder (.byte 0 :: s) = .ok (.big, s) := rfl

theorem verifyGeometryType_chunk (t : ℕ) (ht : t < 4294967296)
    (rest : List Wire) :
    verifyGeometryType (u32chunk .big t ++ rest) .big t = .ok rest := by
  unfold verifyGeometryType decodeGeometryType
  simp only [readU32_u32chunk_lt t ht, exbind_ok]
  simp
  rfl

theorem encodeWKBPointFromLatLng_buffer (st : List Wire) (v : LatLng) :
    encodeWKBPointFromLatLng bufferSink st v =
      .ok (st ++ wkbPointStream (PointFromLatLng v)) := by
  unfold encodeWKBPointFromLatLng encodePointFromLatLng wkbPointStream
  rw [writeByteS_buffer, exbind_ok, writeU32S_buffer, exbind_ok]
  show Except.ok _ = _
  simp [List.append_assoc, wkbXDR, pointChunk, PointFromLatLng, writeF64S,
    bufferSink]

theorem encodeWKBPoint_buffer (st : List Wire) (p : Point) :
    encodeWKBPoint bufferSink st p = .ok (st ++ wkbPointStream p) := by
  unfold encodeWKBPoint wkbPointStream
  rw [writeByteS_buffer, exbind_ok, writeU32S_buffer, exbind_ok,
    encodePoint_buffer]
  simp [List.append_assoc, wkbXDR]

theorem decodeWKBPoint_stream (p : Point) (rest : List Wire) :
    decodeWKBPoint (wkbPointStream p ++ rest) = .ok (p.ll, rest) := by
  unfold decodeWKBPoint wkbPointStream
  simp only [List.cons_append, List.append_assoc]
  rw [decodeOrder_zero, exbind_ok,
    verifyGeometryType_chunk wkbPoint (by decide), exbind_ok,
    decodePoint_chunk]

theorem encodePolylinePoints_buffer (ps : List Point) :
    ∀ st, encodePolylinePoints bufferSink ps st =
      .ok (st ++ (ps.map pointChunk).flatten) := by
  induction ps with
  | nil => intro st; simp [encodePolylinePoints]
  | cons p ps ih =>
    intro st
    unfold encodePolylinePoints
    rw [encodePoint_buffer, exbind_ok, ih]
    simp [List.append_assoc]

theorem encodeWKBLineString_buffer (st : List Wire) (ps : List Point) :
    encodeWKBLineString bufferSink st ps =
      .ok (st ++ wkbLineStringStream ps) := by
  unfold encodeWKBLineString wkbLineStringStream
  rw [writeByteS_buffer, exbind_ok, writeU32S_buffer, exbind_ok,
    writeU32S_buffer, exbind_ok, encodePolylinePoints_buffer]
  simp [List.append_assoc, wkbXDR]

theorem readLatLngs_chunks (ps : List Point) (rest : List Wire) :
    readLatLngs .big ps.length ((ps.map pointChunk).flatten ++ rest) =
      .ok (ps.map LatLngFromPoint, rest) := by
  induction ps with
  | nil => rfl
  | cons p ps ih =>
    simp only [List.map_cons, List.flatten_cons, List.length_cons,
      List.append_assoc, readLatLngs, decodePoint_chunk, exbind_ok, ih]
    rfl

theorem decodeWKBLineString_stream (ps : List Point)
    (hlt : ps.length < 4294967296) (rest : List Wire) :
    decodeWKBLineString (wkbLineStringStream ps ++ rest) = .ok (ps, rest) := by
  unfold decodeWKBLineString wkbLineStringStream
  simp only [List.cons_append, List.append_assoc]
  rw [decodeOrder_zero, exbind_ok,
    verifyGeometryType_chunk wkbLineString (by decide), exbind_ok]
  simp only [readU32_u32chunk_lt ps.length hlt, exbind_ok, readLatLngs_chunks]
  show Except.ok _ = _
  congr 1
  unfold PolylineFromLatLngs
  rw [List.map_map]
  simp [Function.comp_def, PointFromLatLng, LatLngFromPoint]

theorem encodeWKBPointList_buffer (ps : List Point) :
    ∀ st, encodeWKBPointList bufferSink ps st =
      .ok (st ++ (ps.map wkbPointStream).flatten) := by
  induction ps with
  | nil => intro st; simp [encodeWKBPointList]
  | cons p ps ih =>
    intro st
    unfold encodeWKBPointList
    rw [encodeWKBPoint_buffer, exbind_ok, ih]
    simp [List.append_assoc]

theorem readWKBPoints_chunks (m : S2Model) (ps : List Point)
    (rest : List Wire) :
    readWKBPoints m ps.length ((ps.map wkbPointStream).flatten ++ rest) =
      .ok (ps, rest) := by
  induction ps with
  | nil => rfl
  | cons p ps ih =>
    simp only [List.map_cons, List.flatten_cons, List.length_cons,
      List.append_assoc, readWKBPoints]
    rw [decodeWKBPoint_stream, exbind_ok, ih, exbind_ok]
    rfl

theorem encodeWKBMultiPoint_buffer (st : List Wire) (ps : List Point) :
    encodeWKBMultiPoint bufferSink st ps =
      .ok (st ++ wkbMultiPointStream ps) := by
  unfold encodeWKBMultiPoint wkbMultiPointStream
  rw [writeByteS_buffer, exbind_ok, writeU32S_buffer, exbind_ok,
    writeU32S_buffer, exbind_ok, encodeWKBPointList_buffer]
  simp [List.append_assoc, wkbXDR]

theorem decodeWKBMultiPoint_stream (m : S2Model) (ps : List Point)
    (hlt : ps.length < 4294967296) (rest : List Wire) :
    decodeWKBMultiPoint m (wkbMultiPointStream ps ++ rest) = .ok (ps, rest) := by
  unfold decodeWKBMultiPoint wkbMultiPointStream
  simp only [List.cons_append, List.append_assoc]
  rw [decodeOrder_zero, exbind_ok,
    verifyGeometryType_chunk wkbMultiPoint (by decide), exbind_ok]
  simp only [readU32_u32chunk_lt ps.length hlt, exbind_ok, readWKBPoints_chunks]

theorem encodeWKBLineStringList_buffer (pls : List (List Point)) :
    ∀ st, encodeWKBLineStringList bufferSink pls st =
      .ok (st ++ (pls.map wkbLineStringStream).flatten) := by
  induction pls with
  | nil => intro st; simp [encodeWKBLineStringList]
  | cons pl pls ih =>
    intro st
    unfold encodeWKBLineStringList
    rw [encodeWKBLineString_buffer, exbind_ok, ih]
    simp [List.append_assoc]

theorem readWKBLineStrings_chunks (pls : List (List Point))
    (hlt : ∀ pl ∈ pls, pl.length < 4294967296) (rest : List Wire) :
    readWKBLineStrings pls.length ((pls.map wkbLineStringStream).flatten ++ rest) =
      .ok (pls, rest) := by
  induction pls with
  | nil => rfl
  | cons pl pls ih =>
    simp only [List.map_cons, List.flatten_cons, List.length_cons,
      List.append_assoc, readWKBLineStrings]
    rw [decodeWKBLineString_stream pl (hlt pl (by simp)), exbind_ok,
      ih (fun x hx => hlt x (by simp [hx])), exbind_ok]
    rfl

theorem encodeWKBMultiLineString_buffer (st : List Wire)
    (pls : List (List Point)) :
    encodeWKBMultiLineString bufferSink st pls =
      .ok (st ++ wkbMultiLineStringStream pls) := by
  unfold encodeWKBMultiLineString wkbMultiLineStringStream
  rw [writeByteS_buffer, exbind_ok, writeU32S_buffer, exbind_ok,
    writeU32S_buffer, exbind_ok, encodeWKBLineStringList_buffer]
  simp [List.append_assoc, wkbXDR]

theorem decodeWKBMultiLineString_stream (pls : List (List Point))
    (hl : pls.length < 4294967296) (hlt : ∀ pl ∈ pls, pl.length < 4294967296)
    (rest : List Wire) :
    decodeWKBMultiLineString (wkbMultiLineStringStream pls ++ rest) =
      .ok (pls, rest) := by
  unfold decodeWKBMultiLineString wkbMultiLineStringStream
  simp only [List.cons_append, List.append_assoc]
  rw [decodeOrder_zero, exbind_ok,
    verifyGeometryType_chunk wkbMultiLineString (by decide), exbind_ok]
  simp only [readU32_u32chunk_lt pls.length hl, exbind_ok,
    readWKBLineStrings_chunks pls hlt]

/-! ## WKB round trip: polygon lemmas -/

theorem stripClosedRing_orientedClosed (l : Loop) (h : l.vertices ≠ []) :
    stripClosedRing (orientedClosed l) =
      (if l.isHole then l.vertices.reverse else l.vertices) := by
  unfold orientedClosed stripClosedRing
  have hwne : (if l.isHole then l.vertices.reverse else l.vertices) ≠ [] := by
    by_cases hh : l.isHole <;> simp [hh, h]
  cases hcw : (if l.isHole then l.vertices.reverse else l.vertices) with
  | nil => exact absurd hcw hwne
  | cons a t =>
    show (if ((a :: t) ++ List.take 1 (a :: t)).head? =
        ((a :: t) ++ List.take 1 (a :: t)).getLast? then
      ((a :: t) ++ List.take 1 (a :: t)).dropLast
      else (a :: t) ++ List.take 1 (a :: t)) = a :: t
    rw [show List.take 1 (a :: t) = [a] from rfl]
    rw [show ((a :: t) ++ [a] : List Point).head? = some a from rfl,
      List.getLast?_concat]
    rw [if_pos rfl, List.dropLast_concat]

theorem mkRawLoop_orientedClosed (l : Loop) (h : l.vertices ≠ []) :
    mkRawLoop (orientedClosed l) =
      ⟨if l.isHole then l.vertices.reverse else l.vertices, 0⟩ := by
  unfold mkRawLoop LoopFromPoints
  rw [stripClosedRing_orientedClosed l h]

theorem wfRun_nonempty (m : S2Model) (run : List Loop) (h : wfRun m run) :
    ∀ l ∈ run, l.vertices ≠ [] := by
  match run, h with
  | s :: hs, h =>
    obtain ⟨_, h2, _, _, hh⟩ := h
    intro l hl
    rcases List.mem_cons.mp hl with hl2 | hl2
    · subst hl2
      intro hc
      rw [hc] at h2
      simp at h2
    · exact (hh l hl2).2.1

theorem wfRun_ringsW (m : S2Model) (run : List Loop) (h : wfRun m run) :
    wfRingsW (run.map orientedClosed) := by
  intro ps hps
  obtain ⟨l, hl, hlps⟩ := List.mem_map.mp hps
  have hlv : l.vertices ≠ [] := wfRun_nonempty m run h l hl
  subst hlps
  constructor
  · intro hc
    have := orientedClosed_length l hlv
    rw [hc] at this
    simp at this
  · rw [orientedClosed_length l hlv]
    match run, h with
    | s :: hs, h =>
      obtain ⟨_, _, hslt, _, hh⟩ := h
      rcases List.mem_cons.mp hl with hl2 | hl2
      · subst hl2
        exact hslt
      · exact (hh l hl2).2.2.1

theorem orientRings_cons (m : S2Model) (probeIdx : ℤ) (r : Loop)
    (rs : List Loop) :
    orientRings m probeIdx (r :: rs) = do
      let rest ← orientHoles m probeIdx (r.normalize m) rs
      return (r.normalize m) :: rest := rfl

theorem orientHoles_run (m : S2Model) (s : Loop)
    (h2 : 2 ≤ s.vertices.length) :
    ∀ hs : List Loop,
      (∀ x ∈ hs, x.isHole = true ∧ x.vertices ≠ [] ∧
        m.containsPts x.vertices.reverse (s.vertices.getD 1 (ptQ 0 0)) = true) →
      orientHoles m 1 ⟨s.vertices, 0⟩ ((hs.map orientedClosed).map mkRawLoop) =
        .ok (hs.map fun l => ⟨l.vertices, 0⟩) := by
  intro hs
  induction hs with
  | nil => intro _; rfl
  | cons x xs ih =>
    intro hx
    obtain ⟨hxh, hxv, hxc⟩ := hx x (by simp)
    simp only [List.map_cons]
    unfold orientHoles
    have hv1 : (⟨s.vertices, 0⟩ : Loop).vertexGo 1 =
        .ok (s.vertices.getD 1 (ptQ 0 0)) := by
      unfold Loop.vertexGo
      rw [goIndexZ_one s.vertices (by omega)]
      congr 1
      rw [List.getD_eq_getElem _ _ (by omega)]
      rfl
    rw [hv1, exbind_ok]
    have hxraw : mkRawLoop (orientedClosed x) = ⟨x.vertices.reverse, 0⟩ := by
      rw [mkRawLoop_orientedClosed x hxv]
      simp [hxh]
    rw [hxraw]
    rw [show Loop.containsPoint m ⟨x.vertices.reverse, 0⟩
        (s.vertices.getD 1 (ptQ 0 0)) = true from hxc]
    rw [ih (fun y hy => hx y (by simp [hy])), exbind_ok]
    simp only [Loop.invert, List.reverse_reverse]
    rfl

theorem orientRings_run (m : S2Model) (run : List Loop) (hwf : wfRun m run) :
    orientRings m 1 ((run.map orientedClosed).map mkRawLoop) =
      .ok (run.map fun l => ⟨l.vertices, 0⟩) := by
  match run, hwf with
  | s :: hs, hwf =>
    obtain ⟨hS, h2, hlt, hnorm, hh⟩ := hwf
    have hsv : s.vertices ≠ [] := by
      intro hc
      rw [hc] at h2
      simp at h2
    have hfirst : mkRawLoop (orientedClosed s) = ⟨s.vertices, 0⟩ := by
      rw [mkRawLoop_orientedClosed s hsv]
      simp [hS]
    simp only [List.map_cons]
    have hsl : Loop.normalize m ⟨s.vertices, 0⟩ = ⟨s.vertices, 0⟩ := by
      unfold Loop.normalize
      rw [if_pos hnorm]
    rw [orientRings_cons, hfirst, hsl,
      orientHoles_run m s h2 hs (fun x hx =>
        ⟨(hh x hx).1, (hh x hx).2.1, (hh x hx).2.2.2⟩), exbind_ok]
    rfl

theorem runsPartition_cons (l : Loop) (ls : List Loop) :
    runsPartition (l :: ls) =
      (l :: ls.takeWhile Loop.isHole) ::
        runsPartition (ls.dropWhile Loop.isHole) := by
  rw [runsPartition.eq_def]

theorem runsPartition_flatten_aux :
    ∀ (n : ℕ) (ls : List Loop), ls.length ≤ n →
      (runsPartition ls).flatten = ls := by
  intro n
  induction n with
  | zero =>
    intro ls h
    have hls : ls = [] := List.eq_nil_of_length_eq_zero (by omega)
    subst hls
    simp [runsPartition_nil]
  | succ n ih =>
    intro ls h
    cases ls with
    | nil => simp [runsPartition_nil]
    | cons l t =>
      rw [runsPartition_cons, List.flatten_cons]
      rw [ih _ (by
        have := (List.dropWhile_sublist (l := t) (p := Loop.isHole)).length_le
        simp at h
        omega)]
      simp only [List.cons_append]
      rw [List.takeWhile_append_dropWhile]

theorem runsPartition_flatten (ls : List Loop) :
    (runsPartition ls).flatten = ls :=
  runsPartition_flatten_aux ls.length ls (le_refl _)

theorem count_shells_aux (m : S2Model) :
    ∀ (n : ℕ) (ls : List Loop), ls.length ≤ n →
      (∀ run ∈ runsPartition ls, wfRun m run) →
      (ls.filter fun l => !l.isHole).length = (runsPartition ls).length := by
  intro n
  induction n with
  | zero =>
    intro ls h _
    have hls : ls = [] := List.eq_nil_of_length_eq_zero (by omega)
    subst hls
    simp [runsPartition_nil]
  | succ n ih =>
    intro ls h hwf
    cases ls with
    | nil => simp [runsPartition_nil]
    | cons l t =>
      have hrun := hwf (l :: t.takeWhile Loop.isHole)
        (by rw [runsPartition_cons]; simp)
      have hlS : l.isHole = false := hrun.1
      have hwf2 : ∀ run ∈ runsPartition (t.dropWhile Loop.isHole), wfRun m run := by
        intro run hr
        exact hwf run (by rw [runsPartition_cons]; simp [hr])
      rw [runsPartition_cons]
      rw [List.filter_cons_of_pos (by simp [hlS])]
      conv_lhs => rw [show t = t.takeWhile Loop.isHole ++ t.dropWhile Loop.isHole
        from (List.takeWhile_append_dropWhile (p := Loop.isHole) (l := t)).symm]
      rw [List.filter_append]
      rw [List.filter_eq_nil_iff.mpr (fun x hx => by
        simp [List.mem_takeWhile_imp hx])]
      simp only [List.nil_append, List.length_cons]
      rw [ih _ (by
        have := (List.dropWhile_sublist (l := t) (p := Loop.isHole)).length_le
        simp at h
        omega) hwf2]

theorem count_shells (m : S2Model) (ls : List Loop)
    (hwf : ∀ run ∈ runsPartition ls, wfRun m run) :
    (ls.filter fun l => !l.isHole).length = (runsPartition ls).length :=
  count_shells_aux m ls.length ls (le_refl _) hwf

theorem map_vertices_mapIdx :
    ∀ (ls : List Loop) (g : ℕ → Loop → Loop),
      (∀ i l, (g i l).vertices = l.vertices) →
      (ls.mapIdx g).map Loop.vertices = ls.map Loop.vertices := by
  intro ls
  induction ls with
  | nil => intro g hg; rfl
  | cons a t ih =>
    intro g hg
    rw [List.mapIdx_cons, List.map_cons, List.map_cons, hg,
      ih (fun i => g (i + 1)) (fun i l => hg (i + 1) l)]

theorem PolygonFromLoops_vertices (m : S2Model) (ls : List Loop) :
    (PolygonFromLoops m ls).loops.map Loop.vertices = ls.map Loop.vertices := by
  unfold PolygonFromLoops
  exact map_vertices_mapIdx ls _ (fun i l => rfl)

theorem encodeRunListGo_buffer (runs : List (List Loop))
    (h : ∀ run ∈ runs, ∀ l ∈ run, l.vertices ≠ []) :
    ∀ st, encodeRunListGo bufferSink runs st =
      .ok (st ++ (runs.map fun run =>
        polygonStream (run.map orientedClosed)).flatten) := by
  induction runs with
  | nil => intro st; simp [encodeRunListGo]
  | cons run rs ih =>
    intro st
    unfold encodeRunListGo
    rw [encodeWKBPolygon_buffer run (h run (by simp)), exbind_ok,
      ih (fun x hx => h x (by simp [hx]))]
    simp [List.append_assoc]

theorem readWKBPolygonLoopLists_streams (m : S2Model) (runs : List (List Loop))
    (hwf : ∀ run ∈ runs, wfRun m run)
    (hlen : ∀ run ∈ runs, run.length < 4294967296) :
    ∀ acc rest, readWKBPolygonLoopLists m acc runs.length
        ((runs.map fun run =>
          polygonStream (run.map orientedClosed)).flatten ++ rest) =
      .ok (acc ++ (runs.map fun run =>
        run.map fun l => (⟨l.vertices, 0⟩ : Loop)).flatten, rest) := by
  induction runs with
  | nil => intro acc rest; simp [readWKBPolygonLoopLists]
  | cons run rs ih =>
    intro acc rest
    simp only [List.map_cons, List.flatten_cons, List.length_cons,
      List.append_assoc, readWKBPolygonLoopLists]
    rw [decodeWKBPolygonLoops_stream,
      decodePolygonLoopsBody_spec m _ _ (wfRun_ringsW m run (hwf run (by simp)))
        (by simpa using hlen run (by simp)),
      orientRings_run m run (hwf run (by simp))]
    show readWKBPolygonLoopLists m (acc ++ _) rs.length _ = _
    rw [ih (fun x hx => hwf x (by simp [hx])) (fun x hx => hlen x (by simp [hx]))]
    simp [List.append_assoc]

theorem decodeWKBPolygonOrMultiPolygon_poly (m : S2Model)
    (rs : List (List Point)) (rest : List Wire) :
    decodeWKBPolygonOrMultiPolygon m (polygonStream rs ++ rest) =
      decodeWKBPolygonBody m (ringsPayload rs ++ rest) .big := by
  unfold decodeWKBPolygonOrMultiPolygon polygonStream decodeGeometryType
  simp only [List.cons_append, List.append_assoc]
  rw [decodeOrder_zero, exbind_ok]
  simp only [readU32_u32chunk_lt wkbPolygon (by decide), exbind_ok]
  rfl

theorem decodeWKBPolygonOrMultiPolygon_multi (m : S2Model)
    (runsS : List (List (List Point))) (rest : List Wire) :
    decodeWKBPolygonOrMultiPolygon m (wkbMultiPolygonStream runsS ++ rest) =
      decodeWKBMultiPolygonBody m (u32chunk .big runsS.length ++
        ((runsS.map polygonStream).flatten ++ rest)) .big := by
  unfold decodeWKBPolygonOrMultiPolygon wkbMultiPolygonStream
    decodeGeometryType
  simp only [List.cons_append, List.append_assoc]
  rw [decodeOrder_zero, exbind_ok]
  simp only [readU32_u32chunk_lt wkbMultiPolygon (by decide), exbind_ok]
  rw [if_neg (by decide)]
  simp

theorem wf_loops_nonempty (m : S2Model) (ls : List Loop)
    (hruns : ∀ run ∈ runsPartition ls, wfRun m run) :
    ∀ l ∈ ls, l.vertices ≠ [] := by
  intro l hl
  rw [← runsPartition_flatten ls] at hl
  obtain ⟨run, hrun, hlr⟩ := List.mem_flatten.mp hl
  exact wfRun_nonempty m run (hruns run hrun) l hlr

theorem decodeWKBPolygonBody_run (m : S2Model) (run : List Loop)
    (hwf : wfRun m run) (hlen : run.length < 4294967296) :
    decodeWKBPolygonBody m (ringsPayload (run.map orientedClosed)) .big =
      .ok (PolygonFromLoops m (run.map fun l => (⟨l.vertices, 0⟩ : Loop)), []) := by
  have h := decodePolygonLoopsBody_spec m (run.map orientedClosed) []
    (wfRun_ringsW m run hwf) (by simpa using hlen)
  rw [List.append_nil] at h
  unfold decodeWKBPolygonBody
  rw [h, orientRings_run m run hwf]
  rfl

theorem decodeWKBPolygonBody_nil (m : S2Model) :
    decodeWKBPolygonBody m (ringsPayload []) .big =
      .ok (PolygonFromLoops m [], []) := by
  have h := decodePolygonLoopsBody_spec m [] [] (by intro ps hps; cases hps)
    (by decide)
  rw [List.append_nil] at h
  unfold decodeWKBPolygonBody
  rw [h]
  rfl

theorem decodeWKBMultiPolygonBody_runs (m : S2Model) (runs : List (List Loop))
    (hwf : ∀ run ∈ runs, wfRun m run)
    (hlen : ∀ run ∈ runs, run.length < 4294967296)
    (hr : runs.length < 4294967296) :
    decodeWKBMultiPolygonBody m
      (u32chunk .big (runs.map fun run => run.map orientedClosed).length ++
        ((runs.map fun run => run.map orientedClosed).map polygonStream).flatten)
      .big =
      .ok (PolygonFromLoops m ((runs.map fun run =>
        run.map fun l => (⟨l.vertices, 0⟩ : Loop)).flatten), []) := by
  have hs := readWKBPolygonLoopLists_streams m runs hwf hlen [] []
  simp only [List.append_nil, List.nil_append] at hs
  unfold decodeWKBMultiPolygonBody
  simp only [List.length_map, List.map_map, Function.comp_def]
  simp only [readU32_u32chunk_lt runs.length hr, exbind_ok]
  rw [hs]
  rfl

/-- C3: For every supported geometry value (lat/lng point, sphere point,
polyline, point sequence, polyline sequence, polygon) whose sizes fit the
uint32 wire counts and whose polygon loops satisfy the shell-then-holes data
model, WKB Marshal followed by WKB Unmarshal into any destination of the same
shape succeeds and yields a value equal to the original up to floating-point
representation and ring-closure convention (for a polygon: the same loops
with the same orientation, compared as vertex sequences). -/
theorem c3_wkb_roundtrip (m : S2Model) (g : Geom) (hwf : wfGeom m g) :
    ∃ bs, Marshal g = .ok bs ∧
      ∀ d0, shapeTag d0 = shapeTag (destOf g) →
        ∃ d, Unmarshal m bs d0 = .ok d ∧ geomMatches g d := by
  cases g with
  | latLng v =>
    refine ⟨wkbPointStream (PointFromLatLng v), ?_, ?_⟩
    · show encodeWKBPointFromLatLng bufferSink [] v = _
      rw [encodeWKBPointFromLatLng_buffer]
      rfl
    · intro d0 htag
      cases d0 <;> simp [shapeTag, destOf] at htag
      refine ⟨.latLng v, ?_, rfl⟩
      have hd := decodeWKBPoint_stream (PointFromLatLng v) []
      rw [List.append_nil] at hd
      simp only [Unmarshal]
      rw [hd]
      rfl
  | point p =>
    refine ⟨wkbPointStream p, ?_, ?_⟩
    · show encodeWKBPoint bufferSink [] p = _
      rw [encodeWKBPoint_buffer]
      rfl
    · intro d0 htag
      cases d0 <;> simp [shapeTag, destOf] at htag
      refine ⟨.point p, ?_, rfl⟩
      have hd := decodeWKBPoint_stream p []
      rw [List.append_nil] at hd
      simp only [Unmarshal]
      rw [hd]
      rfl
  | polyline v =>
    refine ⟨wkbLineStringStream v, ?_, ?_⟩
    · show encodeWKBLineString bufferSink [] v = _
      rw [encodeWKBLineString_buffer]
      rfl
    · intro d0 htag
      cases d0 <;> simp [shapeTag, destOf] at htag
      refine ⟨.polyline v, ?_, rfl⟩
      have hd := decodeWKBLineString_stream v hwf []
      rw [List.append_nil] at hd
      simp only [Unmarshal]
      rw [hd]
      rfl
  | points v =>
    refine ⟨wkbMultiPointStream v, ?_, ?_⟩
    · show encodeWKBMultiPoint bufferSink [] v = _
      rw [encodeWKBMultiPoint_buffer]
      rfl
    · intro d0 htag
      cases d0 <;> simp [shapeTag, destOf] at htag
      refine ⟨.points v, ?_, rfl⟩
      have hd := decodeWKBMultiPoint_stream m v hwf []
      rw [List.append_nil] at hd
      simp only [Unmarshal]
      rw [hd]
      rfl
  | polylines v =>
    refine ⟨wkbMultiLineStringStream v, ?_, ?_⟩
    · show encodeWKBMultiLineString bufferSink [] v = _
      rw [encodeWKBMultiLineString_buffer]
      rfl
    · intro d0 htag
      cases d0 <;> simp [shapeTag, destOf] at htag
      refine ⟨.polylines v, ?_, rfl⟩
      have hd := decodeWKBMultiLineString_stream v hwf.1 hwf.2 []
      rw [List.append_nil] at hd
      simp only [Unmarshal]
      rw [hd]
      rfl
  | polygon P =>
    obtain ⟨h1, h2, h3⟩ := hwf
    have hne : ∀ l ∈ P.loops, l.vertices ≠ [] := wf_loops_nonempty m P.loops h3
    have hns : (P.loops.filter fun l => !l.isHole).length =
        (runsPartition P.loops).length := count_shells m P.loops h3
    have h1x : P.loops.length < 4294967296 := h1
    by_cases hle : (P.loops.filter fun l => !l.isHole).length ≤ 1
    · refine ⟨polygonStream (P.loops.map orientedClosed), ?_, ?_⟩
      · show encodeWKBMultiPolygon bufferSink [] P = _
        unfold encodeWKBMultiPolygon
        rw [if_pos hle, encodeWKBPolygon_buffer P.loops hne]
        rfl
      · intro d0 htag
        cases d0 <;> simp [shapeTag, destOf] at htag
        have hle2 : (runsPartition P.loops).length ≤ 1 := hns ▸ hle
        have hd := decodeWKBPolygonOrMultiPolygon_poly m
          (P.loops.map orientedClosed) []
        simp only [List.append_nil] at hd
        cases hcase : runsPartition P.loops with
        | nil =>
          have hP : P.loops = [] := by
            have h := runsPartition_flatten P.loops
            rw [hcase] at h
            simpa using h.symm
          refine ⟨.polygon (PolygonFromLoops m []), ?_, ?_⟩
          · simp only [Unmarshal]
            rw [hd, hP]
            simp only [List.map_nil]
            rw [decodeWKBPolygonBody_nil]
            rfl
          · show (PolygonFromLoops m []).loops.map Loop.vertices =
              P.loops.map Loop.vertices
            rw [hP]
            simp [PolygonFromLoops]
        | cons run rs =>
          have hrs : rs = [] := by
            rw [hcase] at hle2
            simp only [List.length_cons] at hle2
            exact List.length_eq_zero.mp (by omega)
          subst hrs
          have hP : P.loops = run := by
            have h := runsPartition_flatten P.loops
            rw [hcase] at h
            simpa using h.symm
          have hmem : run ∈ runsPartition P.loops := by
            rw [hcase]
            simp
          have hwfrun := h3 run hmem
          have hlenrun : run.length < 4294967296 := by
            rw [hP] at h1x
            exact h1x
          refine ⟨.polygon (PolygonFromLoops m
            (run.map fun l => (⟨l.vertices, 0⟩ : Loop))), ?_, ?_⟩
          · simp only [Unmarshal]
            rw [hd, hP, decodeWKBPolygonBody_run m run hwfrun hlenrun]
            rfl
          · show (PolygonFromLoops m _).loops.map Loop.vertices =
              P.loops.map Loop.vertices
            rw [PolygonFromLoops_vertices, hP]
            simp [List.map_map, Function.comp_def]
    · refine ⟨wkbMultiPolygonStream
        ((runsPartition P.loops).map fun run => run.map orientedClosed),
        ?_, ?_⟩
      · show encodeWKBMultiPolygon bufferSink [] P = _
        unfold encodeWKBMultiPolygon
        rw [if_neg hle, writeByteS_buffer, exbind_ok, writeU32S_buffer,
          exbind_ok, writeU32S_buffer, exbind_ok,
          encodeRunListGo_buffer (runsPartition P.loops)
            (fun run hr l hl => hne l (by
              rw [← runsPartition_flatten P.loops]
              exact List.mem_flatten.mpr ⟨run, hr, hl⟩))]
        simp [wkbMultiPolygonStream, wkbXDR, hns, List.append_assoc,
          List.map_map, Function.comp_def]
      · intro d0 htag
        cases d0 <;> simp [shapeTag, destOf] at htag
        have hlenruns : ∀ run ∈ runsPartition P.loops,
            run.length < 4294967296 := by
          intro run hr
          have hsub : run.length ≤ P.loops.length := by
            conv_rhs => rw [← runsPartition_flatten P.loops]
            rw [List.length_flatten]
            exact List.single_le_sum (fun x _ => Nat.zero_le x) _
              (List.mem_map_of_mem _ hr)
          omega
        refine ⟨.polygon (PolygonFromLoops m
          (((runsPartition P.loops).map fun run =>
            run.map fun l => (⟨l.vertices, 0⟩ : Loop)).flatten)), ?_, ?_⟩
        · simp only [Unmarshal]
          have hd := decodeWKBPolygonOrMultiPolygon_multi m
            ((runsPartition P.loops).map fun run => run.map orientedClosed) []
          simp only [List.append_nil] at hd
          rw [hd, decodeWKBMultiPolygonBody_runs m (runsPartition P.loops)
            h3 hlenruns h2]
          rfl
        · show (PolygonFromLoops m _).loops.map Loop.vertices =
            P.loops.map Loop.vertices
          rw [PolygonFromLoops_vertices]
          conv_rhs => rw [← runsPartition_flatten P.loops]
          simp [List.map_flatten, List.map_map, Function.comp_def]

/-- Witness for C3 at the concrete model `M0` and the concrete shell-plus-hole
polygon `polyC3`. -/
theorem c3_witness :
    wfGeom M0 (Geom.polygon polyC3) ∧
      ∃ bs, Marshal (Geom.polygon polyC3) = .ok bs ∧
        ∀ d0, shapeTag d0 = shapeTag (destOf (Geom.polygon polyC3)) →
          ∃ d, Unmarshal M0 bs d0 = .ok d ∧
            geomMatches (Geom.polygon polyC3) d := by
  have hrp : runsPartition polyC3.loops = [polyC3.loops] :=
    runsPartition_single _ _ (by decide)
  have hwf : wfGeom M0 (Geom.polygon polyC3) := by
    refine ⟨by decide, ?_, ?_⟩
    · rw [hrp]
      decide
    · intro run hrun
      rw [hrp] at hrun
      simp only [List.mem_singleton] at hrun
      subst hrun
      show wfRun M0 [⟨sqShellPts, 0⟩, ⟨sqHoleWirePts.reverse, 1⟩]
      decide
  exact ⟨hwf, c3_wkb_roundtrip M0 (Geom.polygon polyC3) hwf⟩

theorem parseRawFeature_fields (fs : List (String × JSONVal))
    (htype : jlookup "type" fs = some (.str "Feature"))
    (hprops : jlookup "properties" fs = none) :
    parseRawFeature (.obj fs) =
      .ok ⟨(jlookup "id" fs).getD .null, "Feature", none,
        jlookup "geometry" fs⟩ := by
  unfold parseRawFeature
  dsimp only
  rw [htype, hprops]
  rfl

/-- C7: Feature decode distinguishes the three states of the geometry key
(on a Feature object with the right type literal, a well-typed id and no
properties key): an absent key fails with the missing-geometry error; a key
present with JSON null succeeds with no geometry set (on a zero receiver);
a key holding a geometry object whose type string is none of the six
recognized ones fails with the invalid-geometry-type error. -/
theorem c7_geometry_states (m : S2Model) (fs : List (String × JSONVal))
    (f0 : Feature)
    (htype : jlookup "type" fs = some (.str "Feature"))
    (hid : validFeatureID ((jlookup "id" fs).getD .null) = true)
    (hprops : jlookup "properties" fs = none) :
    (jlookup "geometry" fs = none →
      featureUnmarshalJSON m (.obj fs) f0 =
        .error (.err .undefinedFeatureGeometry)) ∧
    (jlookup "geometry" fs = some .null → f0.geometry = none →
      ∃ f, featureUnmarshalJSON m (.obj fs) f0 = .ok f ∧
        f.geometry = none) ∧
    (∀ gfs t, jlookup "geometry" fs = some (.obj gfs) →
      jlookup "type" gfs = some (.str t) →
      t ∉ (["Point", "LineString", "Polygon", "MultiPoint",
        "MultiLineString", "MultiPolygon"] : List String) →
      featureUnmarshalJSON m (.obj fs) f0 =
        .error (.err .invalidFeatureGeometryType)) := by
  have hrf := parseRawFeature_fields fs htype hprops
  refine ⟨?_, ?_, ?_⟩
  · intro hg
    simp only [featureUnmarshalJSON, hrf, exbind_ok, hg]
    rw [if_neg (by simp)]
  · intro hg hg0
    refine ⟨⟨(jlookup "id" fs).getD .null, none, f0.geometry,
      f0.precision⟩, ?_, hg0⟩
    simp only [featureUnmarshalJSON, hrf, exbind_ok, hg]
    rw [if_neg (by simp)]
    simp only [hid, Bool.not_true]
    rw [if_neg (by simp)]
    rfl
  · intro gfs t hg ht hnot
    obtain ⟨h1, h2, h3, h4, h5, h6⟩ : t ≠ "Point" ∧ t ≠ "LineString" ∧
        t ≠ "Polygon" ∧ t ≠ "MultiPoint" ∧ t ≠ "MultiLineString" ∧
        t ≠ "MultiPolygon" := by
      simpa using hnot
    have hrg : parseRawGeometry (.obj gfs) =
        .ok ⟨t, jlookup "coordinates" gfs⟩ := by
      unfold parseRawGeometry
      dsimp only
      rw [ht]
      rfl
    simp only [featureUnmarshalJSON, hrf, exbind_ok, hg]
    rw [if_neg (by simp)]
    simp only [hid, Bool.not_true]
    rw [if_neg (by simp)]
    simp only [hrg, exbind_ok]
    rw [if_neg h1, if_neg h2, if_neg h3, if_neg h4, if_neg h5, if_neg h6]
    rfl

/-- Witness for C7 at the concrete Feature object `c7fs` (type literal plus
a null geometry key) and the zero receiver `c7feat`. -/
theorem c7_witness :
    (jlookup "type" c7fs = some (.str "Feature") ∧
     validFeatureID ((jlookup "id" c7fs).getD .null) = true ∧
     jlookup "properties" c7fs = none) ∧
    ((jlookup "geometry" c7fs = none →
       featureUnmarshalJSON M0 (.obj c7fs) c7feat =
         .error (.err .undefinedFeatureGeometry)) ∧
     (jlookup "geometry" c7fs = some .null → c7feat.geometry = none →
       ∃ f, featureUnmarshalJSON M0 (.obj c7fs) c7feat = .ok f ∧
         f.geometry = none) ∧
     (∀ gfs t, jlookup "geometry" c7fs = some (.obj gfs) →
       jlookup "type" gfs = some (.str t) →
       t ∉ (["Point", "LineString", "Polygon", "MultiPoint",
         "MultiLineString", "MultiPolygon"] : List String) →
       featureUnmarshalJSON M0 (.obj c7fs) c7feat =
         .error (.err .invalidFeatureGeometryType))) :=
  ⟨⟨rfl, rfl, rfl⟩, c7_geometry_states M0 c7fs c7feat rfl rfl rfl⟩

/-- C8 counterexample: encoding a Feature with no geometry set does NOT omit
the "geometry" key - the emitted object carries the key with a JSON null
value (rawFeature's geometry field has no omitempty tag, and a nil
RawMessage marshals as null). -/
theorem c8_counterexample :
    featureMarshalJSON c7feat =
      .ok (.obj [("type", .str "Feature"), ("properties", .null),
        ("geometry", .null)]) ∧
    jlookup "geometry" [("type", .str "Feature"), ("properties", .null),
      ("geometry", .null)] = some .null :=
  ⟨rfl, rfl⟩

/-- C8 (amended): for every Feature with a well-typed id and no geometry
set, Feature JSON encode succeeds and emits the "geometry" key with a JSON
null value (the key is present, not omitted); and FeatureCollection encode
always emits its "features" key, even for a nil or empty feature list. -/
theorem c8_amended (f : Feature) (hid : validFeatureID f.id = true)
    (hg : f.geometry = none) :
    (featureMarshalJSON f = .ok (rawFeatureToJSON f.id f.properties none) ∧
     jlookup "geometry"
       (idFieldJSON f.id ++
        [("type", .str "Feature"),
         ("properties", (f.properties.map JSONVal.obj).getD .null),
         ("geometry", .null)]) = some .null) ∧
    ∀ fc js, featureCollectionMarshalJSON fc = .ok js →
      ∃ data, js = .obj [("type", .str "FeatureCollection"),
        ("features", data)] := by
  refine ⟨⟨?_, ?_⟩, ?_⟩
  · simp only [featureMarshalJSON, hid, Bool.not_true]
    rw [if_neg (by simp), hg]
    rfl
  · cases f.id <;> rfl
  · intro fc js h
    unfold featureCollectionMarshalJSON at h
    cases hfc : fc.features with
    | none =>
      rw [hfc] at h
      refine ⟨.null, ?_⟩
      have h2 := Except.ok.inj h
      exact h2.symm
    | some fs =>
      rw [hfc] at h
      dsimp only at h
      cases hjs : featureListToJSON fs with
      | error e =>
        rw [hjs] at h
        rw [exbind_err] at h
        exact absurd h (by simp)
      | ok l =>
        rw [hjs] at h
        rw [exbind_ok] at h
        refine ⟨.arr l, ?_⟩
        have h2 := Except.ok.inj h
        exact h2.symm

/-- Witness for C8 (amended) at the zero Feature (nil id, nil properties,
no geometry). -/
theorem c8_witness :
    validFeatureID JSONVal.null = true ∧
    ((featureMarshalJSON c7feat =
        .ok (rawFeatureToJSON .null none none) ∧
      jlookup "geometry"
        (idFieldJSON JSONVal.null ++
         [("type", .str "Feature"), ("properties", .null),
          ("geometry", .null)]) = some .null) ∧
     ∀ fc js, featureCollectionMarshalJSON fc = .ok js →
       ∃ data, js = .obj [("type", .str "FeatureCollection"),
         ("features", data)]) :=
  ⟨rfl, c8_amended c7feat rfl rfl⟩

end Geo
